import Mathlib

/-!
# ormbench: a shallow embedding of `ormbench.go`

The program is a single-threaded benchmark driver.  The embedding keeps

* the memory the record generator writes: the struct variables of type `Book`
  (addressed, because `fakeBook` takes a `*Book`) and the string arrays that
  slices point into (the package variable `tags` is one slice header over one
  array that lives for the whole process);
* the observable behaviour as a log of events (adapter calls, log lines,
  profiling start/stop, process aborts);
* everything outside the program (the fake-data library, the database client
  libraries, `os.Create`) as an environment of oracles `Env`.

Wall-clock durations printed in the log lines are not modelled; a log line is
represented by its kind and its non-temporal payload.  `flag.Parse()` is
represented by the record `Flags` that `main` receives, and `fake.Seed` by the
choice of the random outcomes `Env.draw`.

A counted `for` loop is a function that recurses on a fuel argument and tests
the loop condition of the source at every iteration; `main_not_stuck` shows
that the fuel supplied is always enough.
-/

namespace Ormbench

/-! ## Data model -/

/-- Go `error` values that the program inspects.  The three sentinels are
compared by identity in the source (`res.Err() != db.ErrNoMoreRows`, ...). -/
inductive Err where
  | ErrNoMoreRows            -- upper.io/db.v3  `db.ErrNoMoreRows`
  | ErrNotFound              -- mgo             `mgo.ErrNotFound`
  | ErrNoRows                -- database/sql    `sql.ErrNoRows`
  | other (code : Nat)       -- any other error value
  deriving DecidableEq, Repr

/-- Address of a variable of type `Book`. -/
abbrev Addr := Nat

/-- Identity of a heap-allocated `[]string` backing array. -/
abbrev ArrId := Nat

/-- A `pq.StringArray` (`[]string`) slice header: the backing array it points
into (`none` for the nil slice) and its length. -/
structure StringArray where
  arr : Option ArrId
  len : Nat
  deriving DecidableEq, Repr

/-- The struct `Book` (source lines 94-104).  `Price` is kept as the bit
pattern of the `float64`, `PublishDate` as a timestamp in nanoseconds. -/
structure Book where
  ID : Nat
  Title : String
  AuthorID : Nat
  Tags : StringArray
  Price : Nat
  PublishDate : Nat
  Text : String
  Text2 : String
  Text3 : String
  deriving DecidableEq, Repr

/-- The zero value of `Book` (`var book Book`). -/
def Book.zero : Book :=
  { ID := 0, Title := "", AuthorID := 0, Tags := ⟨none, 0⟩, Price := 0,
    PublishDate := 0, Text := "", Text2 := "", Text3 := "" }

/-- Program memory: the `Book` variables by address and the string arrays by
identity (element `j` of array `a` is `arrays a j`). -/
structure Mem where
  books : Addr → Book
  arrays : ArrId → Nat → String

/-- The backing array allocated by `make([]string, 10)` for the package
variable `tags`. -/
def tagsArr : ArrId := 0

/-- The package variable `tags = make([]string, 10)` (source line 106): a
slice header of length 10 over `tagsArr`.  The variable is never reassigned. -/
def tags : StringArray := ⟨some tagsArr, 10⟩

/-- Memory at process start: every `Book` is the zero value and every array
element is the empty string. -/
def Mem.init : Mem := { books := fun _ => Book.zero, arrays := fun _ _ => "" }

/-- Elements `sl[0], ..., sl[len-1]` of a slice as seen through memory `m`. -/
def readSlice (m : Mem) (sl : StringArray) : List String :=
  match sl.arr with
  | none => []
  | some a => (List.range sl.len).map (m.arrays a)

/-- Element `sl[j]` of a slice as seen through memory `m` (`none` when the
index is out of range). -/
def sliceAt (m : Mem) (sl : StringArray) (j : Nat) : Option String :=
  match sl.arr with
  | none => none
  | some a => if j < sl.len then some (m.arrays a j) else none

/-- Store to the `Book` variable at address `p`. -/
def Mem.setBook (m : Mem) (p : Addr) (b : Book) : Mem :=
  { m with books := fun q => if q = p then b else m.books q }

/-- Store `v` to element `j` of array `a`. -/
def Mem.setElem (m : Mem) (a : ArrId) (j : Nat) (v : String) : Mem :=
  { m with arrays := fun a' j' => if a' = a ∧ j' = j then v else m.arrays a' j' }

/-- The outcomes of the pseudo-random sources during one call of `fakeBook`:
`fake.Title()`, the `j`-th `fake.Word()`, `rand.Float64()`, `time.Now()` and
the three `fake.WordsN` calls. -/
structure Draw where
  title : String
  word : Nat → String
  price : Nat
  now : Nat
  words10 : String
  words20 : String
  words30 : String

/-! ## The record generator -/

/-- The loop `for i := 0; i < len(tags); i++ { tags[i] = fake.Word() }`
(source lines 111-113). `fuel` bounds the number of iterations; the loop
condition is tested as in the source. The result is `none` when the fuel is
exhausted before the condition fails. -/
def fakeBookLoop (d : Draw) : (fuel i : Nat) → Mem → Option Mem
  | 0, _, _ => none
  | fuel + 1, i, m =>
    if i < tags.len then
      match tags.arr with
      | none => none
      | some a => fakeBookLoop d fuel (i + 1) (m.setElem a i (d.word i))
    else some m

/-- The function `fakeBook(book *Book)` (source lines 108-120). The result is
`none` only if the tag loop did not finish. -/
def fakeBook (d : Draw) (book : Addr) (m : Mem) : Option Mem :=
  let m := m.setBook book { m.books book with Title := d.title }
  let m := m.setBook book { m.books book with AuthorID := 1 }
  match fakeBookLoop d (tags.len + 1) 0 m with
  | none => none
  | some m =>
    let m := m.setBook book { m.books book with Tags := tags }
    let m := m.setBook book { m.books book with Price := d.price }
    let m := m.setBook book { m.books book with PublishDate := d.now }
    let m := m.setBook book { m.books book with Text := d.words10 }
    let m := m.setBook book { m.books book with Text2 := d.words20 }
    let m := m.setBook book { m.books book with Text3 := d.words30 }
    some m

/-! ## Observable behaviour and environment -/

/-- What the process does that can be observed from outside, in order. -/
inductive Event where
  | insertCall (i : Nat) (ok : Bool)      -- adapter insert of iteration `i` and whether it succeeded
  | progress (i : Nat) (id : Option Nat)  -- "inserted %.1fK within %v ..." in iteration `i`
  | insertFinished                        -- "insert finished within %v"
  | selectCall (i : Nat)                  -- adapter select issued in iteration `i`
  | selectSummary (found : Nat)           -- "selected %.0fK times within %v (... %.0fK found)"
  | fatal (arg : Option Err)              -- `log.Fatal(arg)`: print, then `os.Exit(1)`
  | panic (msg : String)                  -- `panic(msg)` or a run-time panic
  | gcOff                                 -- `debug.SetGCPercent(-1)`
  | cpuStart                              -- `pprof.StartCPUProfile(f)`
  | cpuStop                               -- `pprof.StopCPUProfile()`
  | memReport                             -- "allocated mem: ..."
  | heapProfile                           -- `pprof.WriteHeapProfile(f)` succeeded
  | dbClose                               -- deferred `db.Close()` of `goPGInsert`
  deriving DecidableEq, Repr

/-- How a function (or the process) stops. `fatal` is `log.Fatal`, that is
`os.Exit(1)`: the process ends at once and deferred calls do not run.
`panicked` unwinds the stack, running deferred calls. `stuck` is a model
artefact: a loop ran out of fuel (shown never to happen). -/
inductive Exit where
  | returned
  | fatal
  | panicked
  | stuck
  deriving DecidableEq, Repr

/-- Process state: memory and the log of events so far (oldest first). -/
structure St where
  mem : Mem
  log : List Event

/-- State at process start. -/
def St.init : St := { mem := Mem.init, log := [] }

/-- Append one event to the log. -/
def St.emit (s : St) (e : Event) : St := { s with log := s.log ++ [e] }

/-- A result cursor of one select call: the rows delivered by the successive
`Next` calls that return true, and the value of `Err()` once `Next` has
returned false. -/
structure Cursor where
  rows : List Book
  err : Option Err

/-- Outcome of the `k`-th insert call of an adapter, given the record it is
handed (the struct and the contents of its tag slice): the new identifier or
an error. -/
abbrev InsertOracle := Nat → Book → List String → Except Err Nat

/-- Everything outside the program. -/
structure Env where
  draw : Nat → Draw              -- outcomes of the random sources in the `n`-th `fakeBook` call
  bookAddr : Addr                -- where the local variable `book` of a workload lives
  cpuCreate : Option Err         -- error of `os.Create(*cpuprofile)`
  memCreate : Option Err         -- error of `os.Create(*memprofile)`
  writeHeap : Option Err         -- error of `pprof.WriteHeapProfile(f)`
  pgOpen : Option Err            -- error of `postgresql.Open` in `pgInsert`
  pgInsert : InsertOracle        -- `books.Insert(&book)`
  pgxConnect : Option Err        -- error of `pgx.Connect`
  pgxPrepare : Option Err        -- error of `conn.Prepare`
  pgxInsert : InsertOracle       -- `conn.QueryRow("insert", ...).Scan(&id)`
  pqOpen : Option Err            -- error of `sql.Open`
  pqPrepare : Option Err         -- error of `db.Prepare`
  pqInsert : InsertOracle        -- `stmt.QueryRow(...)` then `row.Scan(&id)`
  goPGInsert : InsertOracle      -- `db.Model(&book).Returning("id").Insert()`
  mongoDial : Option Err         -- error of `mgo.Dial` in `mongoInsert`
  mongoInsert : Nat → Book → List String → Option Err  -- `C("books").Insert(book)`
  pgOpenSel : Option Err         -- error of `postgresql.Open` in `pgSelect`
  pgFind : Nat → Cursor          -- `books.Find(price > 0.9).Limit(100)` of iteration `i`
  mongoDialSel : Option Err      -- error of `mgo.Dial` in `mongoSelect`
  mongoFind : Nat → Cursor       -- `books.Find(...).Limit(100).Iter()` of iteration `i`

/-- The loop bounds. The source fixes them as constants (`defaultConfig`);
the workloads are stated for arbitrary values. -/
structure Config where
  insertCount : Nat
  totalInsertCount : Nat
  selectCount : Nat
  deriving DecidableEq, Repr

/-- The constants of the source: `insertCount = 10e3`,
`totalInsertCount = 100e3` (lines 122-125), `selectCount = 5e3` (line 290). -/
def defaultConfig : Config :=
  { insertCount := 10000, totalInsertCount := 100000, selectCount := 5000 }

/-! ## Insert workloads -/

/-- Result of the part of one insert iteration that precedes the progress
check: go on (with the identifier the progress line would print), or the
adapter call failed, or the model ran out of fuel inside `fakeBook`. -/
inductive BodyResult where
  | next (id : Option Nat)
  | failed (e : Err)
  | stuck

/-- The insert loop shared by the five insert workloads:
`for i := 0; i <= totalInsertCount; i++ { body; if err != nil { log.Fatal(err) };
if i > 0 && i%insertCount == 0 { log.Printf(progress) } }`.
`i % insertCount` with `insertCount = 0` is a run-time panic in Go. -/
def insertLoop (cfg : Config) (body : Nat → St → St × BodyResult) :
    (fuel i : Nat) → St → Exit × St
  | 0, _, s => (.stuck, s)
  | fuel + 1, i, s =>
    if i ≤ cfg.totalInsertCount then
      match body i s with
      | (s, .stuck) => (.stuck, s)
      | (s, .failed e) => (.fatal, s.emit (.fatal (some e)))
      | (s, .next id) =>
        if 0 < i then
          if cfg.insertCount = 0 then
            (.panicked, s.emit (.panic "integer divide by zero"))
          else if i % cfg.insertCount = 0 then
            insertLoop cfg body fuel (i + 1) (s.emit (.progress i id))
          else insertLoop cfg body fuel (i + 1) s
        else insertLoop cfg body fuel (i + 1) s
    else (.returned, s)

/-- Run `fakeBook(&book)` for iteration `i`. -/
def genBook (env : Env) (i : Nat) (s : St) : Option St :=
  match fakeBook (env.draw i) env.bookAddr s.mem with
  | none => none
  | some m => some { s with mem := m }

/-- The record as an adapter sees it: the struct and the contents of its tags. -/
def tagsSeen (s : St) (p : Addr) : List String := readSlice s.mem (s.mem.books p).Tags

/-- Loop body of `pgInsert` (lines 150-154): `fakeBook(&book)`;
`id, err := books.Insert(&book)`. -/
def pgInsertBody (env : Env) (i : Nat) (s : St) : St × BodyResult :=
  match genBook env i s with
  | none => (s, .stuck)
  | some s =>
    match env.pgInsert i (s.mem.books env.bookAddr) (tagsSeen s env.bookAddr) with
    | .error e => (s.emit (.insertCall i false), .failed e)
    | .ok id => (s.emit (.insertCall i true), .next (some id))

/-- Loop body of `pgxInsert` (lines 187-195): `fakeBook(&book)`; `var id uint`;
`err := conn.QueryRow("insert", fields...).Scan(&id)`. -/
def pgxInsertBody (env : Env) (i : Nat) (s : St) : St × BodyResult :=
  match genBook env i s with
  | none => (s, .stuck)
  | some s =>
    match env.pgxInsert i (s.mem.books env.bookAddr) (tagsSeen s env.bookAddr) with
    | .error e => (s.emit (.insertCall i false), .failed e)
    | .ok id => (s.emit (.insertCall i true), .next (some id))

/-- Loop body of `pqInsert` (lines 217-226): `fakeBook(&book)`;
`row := stmt.QueryRow(fields...)`; `var id uint`; `err := row.Scan(&id)`. -/
def pqInsertBody (env : Env) (i : Nat) (s : St) : St × BodyResult :=
  match genBook env i s with
  | none => (s, .stuck)
  | some s =>
    match env.pqInsert i (s.mem.books env.bookAddr) (tagsSeen s env.bookAddr) with
    | .error e => (s.emit (.insertCall i false), .failed e)
    | .ok id => (s.emit (.insertCall i true), .next (some id))

/-- Loop body of `goPGInsert` (lines 254-259): `book.ID = 0`; `fakeBook(&book)`;
`_, err := db.Model(&book).Returning("id").Insert()`, which stores the returned
identifier in `book.ID`; the progress line prints `book.ID`. -/
def goPGInsertBody (env : Env) (i : Nat) (s : St) : St × BodyResult :=
  let p := env.bookAddr
  let s := { s with mem := s.mem.setBook p { s.mem.books p with ID := 0 } }
  match genBook env i s with
  | none => (s, .stuck)
  | some s =>
    match env.goPGInsert i (s.mem.books p) (tagsSeen s p) with
    | .error e => (s.emit (.insertCall i false), .failed e)
    | .ok id =>
      let s := { s with mem := s.mem.setBook p { s.mem.books p with ID := id } }
      (s.emit (.insertCall i true), .next (some (s.mem.books p).ID))

/-- Loop body of `mongoInsert` (lines 277-281): `fakeBook(&book)`;
`err := sess.DB("booktown").C("books").Insert(book)`. The progress line of
this workload prints no identifier. -/
def mongoInsertBody (env : Env) (i : Nat) (s : St) : St × BodyResult :=
  match genBook env i s with
  | none => (s, .stuck)
  | some s =>
    match env.mongoInsert i (s.mem.books env.bookAddr) (tagsSeen s env.bookAddr) with
    | some e => (s.emit (.insertCall i false), .failed e)
    | none => (s.emit (.insertCall i true), .next none)

/-- Declare the local `var book Book`. -/
def declBook (env : Env) (s : St) : St :=
  { s with mem := s.mem.setBook env.bookAddr Book.zero }

/-- The loop of an insert workload followed by the final
`log.Printf("insert finished within %v", ...)`. -/
def insertRun (cfg : Config) (body : Nat → St → St × BodyResult) (s : St) : Exit × St :=
  match insertLoop cfg body (cfg.totalInsertCount + 2) 0 s with
  | (.returned, s) => (.returned, s.emit .insertFinished)
  | r => r

/-- The function `pgInsert` (lines 127-161). The calls `sess.SetTxOptions`,
`sess.SetPreparedStatementCache`, `sess.SetLogging` come before the check of
`err`; on a failed `Open` the session is nil and the first of them panics. -/
def pgInsert (env : Env) (cfg : Config) (s : St) : Exit × St :=
  match env.pgOpen with
  | some _ => (.panicked, s.emit (.panic "nil pointer dereference"))
  | none => insertRun cfg (pgInsertBody env) (declBook env s)

/-- The function `pgxInsert` (lines 169-202). -/
def pgxInsert (env : Env) (cfg : Config) (s : St) : Exit × St :=
  match env.pgxConnect with
  | some e => (.fatal, s.emit (.fatal (some e)))
  | none =>
    let s := declBook env s
    match env.pgxPrepare with
    | some e => (.fatal, s.emit (.fatal (some e)))
    | none => insertRun cfg (pgxInsertBody env) s

/-- The function `pqInsert` (lines 204-233). -/
def pqInsert (env : Env) (cfg : Config) (s : St) : Exit × St :=
  match env.pqOpen with
  | some e => (.fatal, s.emit (.fatal (some e)))
  | none =>
    let s := declBook env s
    match env.pqPrepare with
    | some e => (.fatal, s.emit (.fatal (some e)))
    | none => insertRun cfg (pqInsertBody env) s

/-- The function `goPGInsert` (lines 235-266). `pg.Connect` returns no error.
`defer db.Close()` runs when the function returns or panics, not when
`log.Fatal` ends the process. -/
def goPGInsert (env : Env) (cfg : Config) (s : St) : Exit × St :=
  match insertRun cfg (goPGInsertBody env) (declBook env s) with
  | (.returned, s) => (.returned, s.emit .dbClose)
  | (.panicked, s) => (.panicked, s.emit .dbClose)
  | r => r

/-- The function `mongoInsert` (lines 268-288). -/
def mongoInsert (env : Env) (cfg : Config) (s : St) : Exit × St :=
  match env.mongoDial with
  | some e => (.fatal, s.emit (.fatal (some e)))
  | none => insertRun cfg (mongoInsertBody env) (declBook env s)

/-! ## Select workloads -/

/-- The loop `for res.Next(&book) { found++ }` (lines 311-313, 341-343): each
delivered row is stored in `book` and counted. -/
def drain (p : Addr) : List Book → Mem → Nat → Mem × Nat
  | [], m, found => (m, found)
  | row :: rest, m, found => drain p rest (m.setBook p row) (found + 1)

/-- What one iteration of a select loop does to the loop: go on with the new
state and counter, or abort the process. -/
inductive SelectStep where
  | next (s : St) (found : Nat)
  | fatal (s : St)

/-- Body of the loop of `pgSelect` (lines 308-318). `err` is the variable of
the enclosing function, which is what the source passes to `log.Fatal`. -/
def pgSelectBody (env : Env) (err : Option Err) (i : Nat) (s : St) (found : Nat) :
    SelectStep :=
  let s := s.emit (.selectCall i)
  let res := env.pgFind i
  let (m, found) := drain env.bookAddr res.rows s.mem found
  let s := { s with mem := m }
  if res.err ≠ none then
    if res.err ≠ some Err.ErrNoMoreRows then
      .fatal (s.emit (.fatal err))
    else .next s found
  else .next s found

/-- Body of the loop of `mongoSelect` (lines 339-348). -/
def mongoSelectBody (env : Env) (i : Nat) (s : St) (found : Nat) : SelectStep :=
  let s := s.emit (.selectCall i)
  let iter := env.mongoFind i
  let (m, found) := drain env.bookAddr iter.rows s.mem found
  let s := { s with mem := m }
  if iter.err ≠ none then
    if iter.err ≠ some Err.ErrNotFound then
      .fatal (s.emit (.fatal iter.err))
    else .next s found
  else .next s found

/-- The loop `for i := 0; i < selectCount; i++ { body }` of the select
workloads, returning the final value of `found`. -/
def selectLoop (cfg : Config) (body : Nat → St → Nat → SelectStep) :
    (fuel i : Nat) → St → Nat → Exit × St × Nat
  | 0, _, s, found => (.stuck, s, found)
  | fuel + 1, i, s, found =>
    if i < cfg.selectCount then
      match body i s found with
      | .fatal s => (.fatal, s, found)
      | .next s found => selectLoop cfg body fuel (i + 1) s found
    else (.returned, s, found)

/-- The loop of a select workload followed by the single summary line
`log.Printf("selected %.0fK times within %v (..., %v latency, %.0fK found)", ...)`
(lines 320-326, 350-356). The arguments of that call are evaluated before
anything is printed, and one of them is `took/selectCount`, an integer division
of a `time.Duration`: with `selectCount = 0` it panics and no line is printed.
(The other quotient, `float64(took.Seconds())/selectCount`, is a floating-point
division and does not panic.) -/
def selectRun (cfg : Config) (body : Nat → St → Nat → SelectStep) (s : St) : Exit × St :=
  match selectLoop cfg body (cfg.selectCount + 1) 0 s 0 with
  | (.returned, s, found) =>
    if cfg.selectCount = 0 then
      (.panicked, s.emit (.panic "integer divide by zero"))
    else (.returned, s.emit (.selectSummary found))
  | (e, s, _) => (e, s)

/-- The function `pgSelect` (lines 292-327). `sess.SetPreparedStatementCache`
comes before the check of `err`; on a failed `Open` the session is nil and the
call panics. After the check `err` is nil. -/
def pgSelect (env : Env) (cfg : Config) (s : St) : Exit × St :=
  match env.pgOpenSel with
  | some _ => (.panicked, s.emit (.panic "nil pointer dereference"))
  | none => selectRun cfg (pgSelectBody env none) (declBook env s)

/-- The function `mongoSelect` (lines 329-357). -/
def mongoSelect (env : Env) (cfg : Config) (s : St) : Exit × St :=
  match env.mongoDialSel with
  | some e => (.fatal, s.emit (.fatal (some e)))
  | none => selectRun cfg (mongoSelectBody env) (declBook env s)

/-- The function `sqlxSelect` (lines 359-389). Its first statement is
`panic("todo")`; nothing after it is reachable. -/
def sqlxSelect (_env : Env) (_cfg : Config) (s : St) : Exit × St :=
  (.panicked, s.emit (.panic "todo"))

/-! ## Process entry -/

/-- The command-line flags (lines 31-36). -/
structure Flags where
  insertDB : String
  selectDB : String
  cpuprofile : String
  memprofile : String
  deriving DecidableEq, Repr

/-- The statement `switch *insertDB { ... }` (lines 56-67). -/
def insertSwitch (env : Env) (cfg : Config) (name : String) (s : St) : Exit × St :=
  if name = "pg" then pgInsert env cfg s
  else if name = "pgx" then pgxInsert env cfg s
  else if name = "pq" then pqInsert env cfg s
  else if name = "go-pg" then goPGInsert env cfg s
  else if name = "mongo" then mongoInsert env cfg s
  else (.returned, s)

/-- The statement `switch *selectDB { ... }` (lines 69-76). -/
def selectSwitch (env : Env) (cfg : Config) (name : String) (s : St) : Exit × St :=
  if name = "pg" then pgSelect env cfg s
  else if name = "mongo" then mongoSelect env cfg s
  else if name = "sqlx" then sqlxSelect env cfg s
  else (.returned, s)

/-- Lines 78-91 of `main`: the memory report and the optional heap profile. -/
def mainReport (env : Env) (flags : Flags) (s : St) : Exit × St :=
  let s := s.emit .memReport
  if flags.memprofile ≠ "" then
    match env.memCreate with
    | some e => (.fatal, s.emit (.fatal (some e)))
    | none =>
      match env.writeHeap with
      | some e => (.fatal, s.emit (.fatal (some e)))
      | none => (.returned, s.emit .heapProfile)
  else (.returned, s)

/-- Lines 56-91 of `main`: the two switches in sequence, then the report. A
statement is reached only if the one before it returned. -/
def mainWork (env : Env) (cfg : Config) (flags : Flags) (s : St) : Exit × St :=
  match insertSwitch env cfg flags.insertDB s with
  | (.returned, s) =>
    match selectSwitch env cfg flags.selectDB s with
    | (.returned, s) => mainReport env flags s
    | r => r
  | r => r

/-- Leave a function that has `defer pprof.StopCPUProfile()` pending: the
deferred call runs when the function returns and while a panic unwinds; it
does not run when `os.Exit` (through `log.Fatal`) ends the process. -/
def withDeferredStop (r : Exit × St) : Exit × St :=
  match r with
  | (.returned, s) => (.returned, s.emit .cpuStop)
  | (.panicked, s) => (.panicked, s.emit .cpuStop)
  | r => r

/-- The function `main` (lines 38-92), run from the initial process state. -/
def main (env : Env) (cfg : Config) (flags : Flags) : Exit × St :=
  let s := St.init
  let s := if flags.memprofile ≠ "" then s.emit .gcOff else s
  if flags.cpuprofile ≠ "" then
    match env.cpuCreate with
    | some e => (.fatal, s.emit (.fatal (some e)))
    | none => withDeferredStop (mainWork env cfg flags (s.emit .cpuStart))
  else mainWork env cfg flags s

/-! ## Vocabulary for stating the properties -/

/-- The five insert workloads that `main` can dispatch to. -/
inductive InsertBackend where
  | pg
  | pgx
  | pq
  | goPG
  | mongo
  deriving DecidableEq, Repr

/-- The source function of an insert workload. -/
def InsertBackend.run : InsertBackend → Env → Config → St → Exit × St
  | .pg => pgInsert
  | .pgx => pgxInsert
  | .pq => pqInsert
  | .goPG => goPGInsert
  | .mongo => mongoInsert

/-- The connection setup of the workload succeeds. -/
def Env.setupOk (env : Env) : InsertBackend → Prop
  | .pg => env.pgOpen = none
  | .pgx => env.pgxConnect = none ∧ env.pgxPrepare = none
  | .pq => env.pqOpen = none ∧ env.pqPrepare = none
  | .goPG => True
  | .mongo => env.mongoDial = none

/-- The insert call of iteration `k` of the workload succeeds, whatever record
it is handed. -/
def Env.insertOk (env : Env) (w : InsertBackend) (k : Nat) : Prop :=
  match w with
  | .pg => ∀ b t, ∃ id, env.pgInsert k b t = .ok id
  | .pgx => ∀ b t, ∃ id, env.pgxInsert k b t = .ok id
  | .pq => ∀ b t, ∃ id, env.pqInsert k b t = .ok id
  | .goPG => ∀ b t, ∃ id, env.goPGInsert k b t = .ok id
  | .mongo => ∀ b t, env.mongoInsert k b t = none

/-- The insert call of iteration `k` of the workload fails, whatever record it
is handed. -/
def Env.insertFails (env : Env) (w : InsertBackend) (k : Nat) : Prop :=
  match w with
  | .pg => ∀ b t, ∃ e, env.pgInsert k b t = .error e
  | .pgx => ∀ b t, ∃ e, env.pgxInsert k b t = .error e
  | .pq => ∀ b t, ∃ e, env.pqInsert k b t = .error e
  | .goPG => ∀ b t, ∃ e, env.goPGInsert k b t = .error e
  | .mongo => ∀ b t, ∃ e, env.mongoInsert k b t = some e

/-- The adapter insert calls in a log: iteration and success, in order. -/
def insertCallsOf (l : List Event) : List (Nat × Bool) :=
  l.filterMap fun e => match e with
    | .insertCall i ok => some (i, ok)
    | _ => none

/-- The iterations at which a progress line was emitted, in order. -/
def progressOf (l : List Event) : List Nat :=
  l.filterMap fun e => match e with
    | .progress i _ => some i
    | _ => none

/-- The condition of the progress line: `i > 0 && i%insertCount == 0`. -/
def isBatchEnd (cfg : Config) (i : Nat) : Bool :=
  decide (0 < i ∧ i % cfg.insertCount = 0)

/-- The events of one successful insert iteration `i`: the adapter call and,
at the end of a batch, the progress line (printing identifier `ids i`). -/
def iterEvents (cfg : Config) (ids : Nat → Option Nat) (i : Nat) : List Event :=
  .insertCall i true :: (if isBatchEnd cfg i then [.progress i (ids i)] else [])

/-- The loop body succeeds in iteration `j`: it makes one successful adapter
call and hands an identifier to the progress check. -/
def BodyNext (body : Nat → St → St × BodyResult) (j : Nat) : Prop :=
  ∀ s, ∃ s' id, body j s = (s', .next id) ∧ s'.log = s.log ++ [.insertCall j true]

/-- The loop body fails in iteration `k`: it makes one failing adapter call. -/
def BodyFail (body : Nat → St → St × BodyResult) (k : Nat) : Prop :=
  ∀ s, ∃ s' e, body k s = (s', .failed e) ∧ s'.log = s.log ++ [.insertCall k false]

/-- The loop body of an insert workload. -/
def InsertBackend.body : InsertBackend → Env → Nat → St → St × BodyResult
  | .pg => pgInsertBody
  | .pgx => pgxInsertBody
  | .pq => pqInsertBody
  | .goPG => goPGInsertBody
  | .mongo => mongoInsertBody

/-- The events a workload emits after its summary line when it returns: the
deferred `db.Close()` of `goPGInsert`. -/
def InsertBackend.closing : InsertBackend → List Event
  | .goPG => [.dbClose]
  | _ => []

/-- The two select workloads with a loop (`sqlxSelect` has none that runs). -/
inductive SelectBackend where
  | pg
  | mongo
  deriving DecidableEq, Repr

/-- The source function of a select workload. -/
def SelectBackend.run : SelectBackend → Env → Config → St → Exit × St
  | .pg => pgSelect
  | .mongo => mongoSelect

/-- The loop body of a select workload, as the workload calls it. -/
def SelectBackend.body : SelectBackend → Env → Nat → St → Nat → SelectStep
  | .pg => fun env => pgSelectBody env none
  | .mongo => mongoSelectBody

/-- The cursor the adapter returns in iteration `i`. -/
def SelectBackend.cursor : SelectBackend → Env → Nat → Cursor
  | .pg => fun env => env.pgFind
  | .mongo => fun env => env.mongoFind

/-- The backend's no-more-rows sentinel the workload compares against. -/
def SelectBackend.sentinel : SelectBackend → Err
  | .pg => .ErrNoMoreRows
  | .mongo => .ErrNotFound

/-- The connection setup of the select workload succeeds. -/
def Env.selectSetupOk (env : Env) : SelectBackend → Prop
  | .pg => env.pgOpenSel = none
  | .mongo => env.mongoDialSel = none

/-- The cursor of iteration `i` ends without error or with the sentinel. -/
def Env.cursorEndsOk (env : Env) (w : SelectBackend) (i : Nat) : Prop :=
  (w.cursor env i).err = none ∨ (w.cursor env i).err = some w.sentinel

/-- The adapter select calls in a log: their iterations, in order. -/
def selectCallsOf (l : List Event) : List Nat :=
  l.filterMap fun e => match e with
    | .selectCall i => some i
    | _ => none

/-- The summary lines of select workloads in a log: their `found` values. -/
def summariesOf (l : List Event) : List Nat :=
  l.filterMap fun e => match e with
    | .selectSummary found => some found
    | _ => none

/-- Total number of rows the cursors of iterations `0..n-1` yield. -/
def rowsYielded (w : SelectBackend) (env : Env) (n : Nat) : Nat :=
  ((List.range n).map fun i => (w.cursor env i).rows.length).sum

/-- The name under which `main` dispatches to a select workload. -/
def SelectBackend.name : SelectBackend → String
  | .pg => "pg"
  | .mongo => "mongo"

/-- The name under which `main` dispatches to an insert workload. -/
def InsertBackend.name : InsertBackend → String
  | .pg => "pg"
  | .pgx => "pgx"
  | .pq => "pq"
  | .goPG => "go-pg"
  | .mongo => "mongo"

/-- Boundary configuration: both loop bounds are zero. -/
def zeroConfig : Config := { insertCount := 10, totalInsertCount := 0, selectCount := 0 }

/-- The argument the workload passes to `log.Fatal` when the cursor of
iteration `i` reports a fatal error: `pgSelect` passes the function's variable
`err` (nil at that point), `mongoSelect` passes `iter.Err()`. -/
def SelectBackend.fatalArg : SelectBackend → Env → Nat → Option Err
  | .pg => fun _ _ => none
  | .mongo => fun env i => (env.mongoFind i).err

/-- The names the insert switch of `main` has a case for. -/
def insertNames : List String := ["pg", "pgx", "pq", "go-pg", "mongo"]

/-- The names the select switch of `main` has a case for. -/
def selectNames : List String := ["pg", "mongo", "sqlx"]

/-- Events that only an insert workload's loop and summary emit. -/
def isInsertEvent : Event → Bool
  | .insertCall _ _ => true
  | .progress _ _ => true
  | .insertFinished => true
  | _ => false

/-- Events that only a select workload's loop and summary emit. -/
def isSelectEvent : Event → Bool
  | .selectCall _ => true
  | .selectSummary _ => true
  | _ => false

/-- Events by which the process stops abnormally. -/
def isAbortEvent : Event → Bool
  | .fatal _ => true
  | .panic _ => true
  | _ => false

/-- Events an insert loop can emit: calls, progress lines, aborts. -/
def fromInsertLoop (e : Event) : Bool :=
  match e with
  | .insertCall _ _ => true
  | .progress _ _ => true
  | _ => isAbortEvent e

/-- Events an insert workload can emit. -/
def fromInsert (e : Event) : Bool :=
  isInsertEvent e || isAbortEvent e || decide (e = .dbClose)

/-- Events a select workload can emit. -/
def fromSelect (e : Event) : Bool :=
  isSelectEvent e || isAbortEvent e

/-- State `s'` has the log of `s` followed by events that all satisfy `P`. -/
def Extends (P : Event → Bool) (s s' : St) : Prop :=
  ∃ new, s'.log = s.log ++ new ∧ ∀ e, e ∈ new → P e = true

/-- What a run of an insert workload (or of the insert switch) from `s` to
`r.2` adds to the log: only events of insert workloads, with the summary line
present exactly when the run returned. -/
def InsertShape (s : St) (r : Exit × St) : Prop :=
  ∃ new, r.2.log = s.log ++ new ∧ (∀ e, e ∈ new → fromInsert e = true) ∧
    (r.1 = .returned → Event.insertFinished ∈ new) ∧
    (r.1 ≠ .returned → Event.insertFinished ∉ new)

/-- The events `main` emits before the insert switch when the CPU profile, if
requested, could be started: `debug.SetGCPercent(-1)` if a heap profile is
requested, then `pprof.StartCPUProfile` if a CPU profile is requested. -/
def prologue (flags : Flags) : List Event :=
  (if flags.memprofile ≠ "" then [.gcOff] else []) ++
    (if flags.cpuprofile ≠ "" then [.cpuStart] else [])

/-- The state in which `main` reaches the insert switch. -/
def startState (flags : Flags) : St := { mem := Mem.init, log := prologue flags }

/-- Return from `main`: run the deferred `pprof.StopCPUProfile()` if it was
registered. -/
def finish (flags : Flags) (r : Exit × St) : Exit × St :=
  if flags.cpuprofile ≠ "" then withDeferredStop r else r

/-- Whether CPU sampling is active after the events of a log: it is switched
on by `pprof.StartCPUProfile` and off by `pprof.StopCPUProfile`. -/
def cpuActive (l : List Event) : Bool :=
  l.foldl (fun active e => match e with
    | .cpuStart => true
    | .cpuStop => false
    | _ => active) false

/-- Flags requesting a CPU profile around the `pg` insert workload. -/
def cpuFlags : Flags :=
  { insertDB := "pg", selectDB := "", cpuprofile := "cpu.prof", memprofile := "" }

/-- Flags naming no known backend in either mode. -/
def unknownFlags : Flags :=
  { insertDB := "oracle", selectDB := "redis", cpuprofile := "", memprofile := "" }

/-! ## Sample inputs -/

/-- A mock environment: setup succeeds, the `k`-th insert call returns the
identifier `k + 1`, and every select cursor yields exactly 100 rows and then
reports the backend's no-more-rows sentinel. -/
def mockEnv : Env :=
  { draw := fun _ => { title := "t", word := fun _ => "w", price := 0, now := 0,
                       words10 := "", words20 := "", words30 := "" }
    bookAddr := 0
    cpuCreate := none
    memCreate := none
    writeHeap := none
    pgOpen := none
    pgInsert := fun k _ _ => .ok (k + 1)
    pgxConnect := none
    pgxPrepare := none
    pgxInsert := fun k _ _ => .ok (k + 1)
    pqOpen := none
    pqPrepare := none
    pqInsert := fun k _ _ => .ok (k + 1)
    goPGInsert := fun k _ _ => .ok (k + 1)
    mongoDial := none
    mongoInsert := fun _ _ _ => none
    pgOpenSel := none
    pgFind := fun _ => ⟨List.replicate 100 Book.zero, some Err.ErrNoMoreRows⟩
    mongoDialSel := none
    mongoFind := fun _ => ⟨List.replicate 100 Book.zero, some Err.ErrNotFound⟩ }

/-- A mock environment whose insert call fails on the 5th invocation
(iteration 4) and succeeds before. -/
def failingEnv : Env :=
  { mockEnv with
    pgInsert := fun k _ _ => if k = 4 then .error (.other 1) else .ok (k + 1)
    pgxInsert := fun k _ _ => if k = 4 then .error (.other 1) else .ok (k + 1)
    pqInsert := fun k _ _ => if k = 4 then .error (.other 1) else .ok (k + 1)
    goPGInsert := fun k _ _ => if k = 4 then .error (.other 1) else .ok (k + 1)
    mongoInsert := fun k _ _ => if k = 4 then some (.other 1) else none }

/-- Scenario A of the specification: `totalCount = 25`, `batchSize = 10`. -/
def scenarioA : Config := { insertCount := 10, totalInsertCount := 25, selectCount := 3 }


/-- Random outcomes in which every generated word is "a". -/
def drawA : Draw :=
  { title := "A", word := fun _ => "a", price := 1, now := 1,
    words10 := "a10", words20 := "a20", words30 := "a30" }

/-- Random outcomes in which every generated word is "b". -/
def drawB : Draw :=
  { title := "B", word := fun _ => "b", price := 2, now := 2,
    words10 := "b10", words20 := "b20", words30 := "b30" }

/-! ## The record generator: proofs -/

theorem fakeBookLoop_spec (d : Draw) :
    ∀ (fuel i : Nat) (m : Mem), 10 < fuel + i → i ≤ 10 →
      ∃ m', fakeBookLoop d fuel i m = some m' ∧ m'.books = m.books ∧
        ∀ a j, m'.arrays a j =
          if a = tagsArr ∧ i ≤ j ∧ j < 10 then d.word j else m.arrays a j := by
  intro fuel
  induction fuel with
  | zero => intro i m h1 h2; omega
  | succ fuel ih =>
    intro i m h1 h2
    by_cases hi : i < 10
    · obtain ⟨m', h, hb, ha⟩ := ih (i + 1) (m.setElem tagsArr i (d.word i)) (by omega) (by omega)
      refine ⟨m', ?_, ?_, ?_⟩
      · simp only [fakeBookLoop, tags, hi, if_true]
        exact h
      · rw [hb]; rfl
      · intro a j
        rw [ha a j]
        simp only [Mem.setElem]
        by_cases h1 : a = tagsArr
        · by_cases h2 : j = i
          · subst h2; simp [h1, hi]
          · have : (i + 1 ≤ j ∧ j < 10) ↔ (i ≤ j ∧ j < 10) := by omega
            simp [h1, h2, this]
        · simp [h1]
    · have h10 : i = 10 := by omega
      subst h10
      refine ⟨m, ?_, rfl, ?_⟩
      · simp [fakeBookLoop, tags]
      · intro a j
        have : ¬ (10 ≤ j ∧ j < 10) := by omega
        simp [this]

theorem fakeBookLoop_ne_none (d : Draw) (fuel i : Nat) (m : Mem)
    (h1 : 10 < fuel + i) (h2 : i ≤ 10) : fakeBookLoop d fuel i m ≠ none := by
  obtain ⟨m', h, _⟩ := fakeBookLoop_spec d fuel i m h1 h2
  simp [h]

theorem fakeBookLoop_some (d : Draw) (fuel i : Nat) (m m' : Mem)
    (h : fakeBookLoop d fuel i m = some m') (h1 : 10 < fuel + i) (h2 : i ≤ 10) :
    m'.books = m.books ∧
      ∀ a j, m'.arrays a j =
        if a = tagsArr ∧ i ≤ j ∧ j < 10 then d.word j else m.arrays a j := by
  obtain ⟨m'', h', hb, ha⟩ := fakeBookLoop_spec d fuel i m h1 h2
  rw [h] at h'
  cases h'
  exact ⟨hb, ha⟩

/-- What one call of `fakeBook` does to memory: the struct at `book` gets the
seven generated fields and the header of `tags`, no other struct changes, and
elements 0..9 of the array behind `tags` get the ten generated words. -/
theorem fakeBook_spec (d : Draw) (book : Addr) (m : Mem) :
    ∃ m', fakeBook d book m = some m' ∧
      m'.books book =
        { ID := (m.books book).ID, Title := d.title, AuthorID := 1, Tags := tags,
          Price := d.price, PublishDate := d.now, Text := d.words10,
          Text2 := d.words20, Text3 := d.words30 } ∧
      (∀ q, q ≠ book → m'.books q = m.books q) ∧
      (∀ a j, m'.arrays a j =
        if a = tagsArr ∧ j < 10 then d.word j else m.arrays a j) := by
  simp only [fakeBook]
  split
  · next h => exact absurd h (fakeBookLoop_ne_none d _ 0 _ (by simp [tags]) (by omega))
  · next m1 h =>
    obtain ⟨hb, ha⟩ := fakeBookLoop_some d _ 0 _ m1 h (by simp [tags]) (by omega)
    refine ⟨_, rfl, ?_, ?_, ?_⟩
    · simp [Mem.setBook, hb]
    · intro q hq
      simp [Mem.setBook, hb, hq]
    · intro a j
      simp only [Mem.setBook]
      rw [ha a j]
      simp [Mem.setBook]

theorem fakeBook_isSome (d : Draw) (book : Addr) (m : Mem) :
    ∃ m', fakeBook d book m = some m' := by
  obtain ⟨m', h, _⟩ := fakeBook_spec d book m
  exact ⟨m', h⟩

/-- After `fakeBook`, the tags of the filled record read as the ten words
generated in that call. -/
theorem fakeBook_readTags (d : Draw) (book : Addr) (m m' : Mem)
    (h : fakeBook d book m = some m') :
    readSlice m' (m'.books book).Tags = (List.range 10).map d.word := by
  obtain ⟨m'', e, hb, _, ha⟩ := fakeBook_spec d book m
  rw [h] at e; cases e
  rw [hb]
  simp only [readSlice, tags]
  apply List.map_congr_left
  intro j hj
  rw [ha tagsArr j]
  simp [List.mem_range.mp hj]

/-- C10: for every `Book` value and every outcome of the random sources,
`fakeBook` finishes, leaves `book.Tags` with exactly 10 elements, element `j`
being the `j`-th word generated during this call, and sets `book.AuthorID`
to 1. -/
theorem fakeBook_tags_and_author (d : Draw) (book : Addr) (m : Mem) :
    ∃ m', fakeBook d book m = some m' ∧
      (m'.books book).Tags.len = 10 ∧
      (readSlice m' (m'.books book).Tags).length = 10 ∧
      readSlice m' (m'.books book).Tags = (List.range 10).map d.word ∧
      (m'.books book).AuthorID = 1 := by
  obtain ⟨m', h, hb, _, _⟩ := fakeBook_spec d book m
  have hr := fakeBook_readTags d book m m' h
  refine ⟨m', h, ?_, ?_, hr, ?_⟩
  · rw [hb]; rfl
  · rw [hr]; simp
  · rw [hb]

/-- C9 (as stated, refuted): fill the `Book` at address 1 with words "a", read
its tags, then fill the distinct `Book` at address 2 with words "b": the tags
of the first `Book` now read "b". -/
theorem fakeBook_tags_overwritten_example :
    ∃ m1 m2, fakeBook drawA 1 Mem.init = some m1 ∧ fakeBook drawB 2 m1 = some m2 ∧
      readSlice m1 (m1.books 1).Tags = List.replicate 10 "a" ∧
      readSlice m2 (m2.books 1).Tags = List.replicate 10 "b" ∧
      sliceAt m1 (m1.books 1).Tags 0 = some "a" ∧
      sliceAt m2 (m1.books 1).Tags 0 = some "b" := by
  refine ⟨_, _, rfl, rfl, ?_, ?_, ?_, ?_⟩ <;> rfl

/-- C9 (amended): for two distinct `Book` variables, a call of `fakeBook` on
the second leaves the struct of the first unchanged field by field (its
`Tags` header included), but both `Tags` headers denote the array behind the
package variable `tags`, so the first record's tags now read as the ten words
generated by the second call. -/
theorem fakeBook_frame_and_shared_tags (d1 d2 : Draw) (p1 p2 : Addr) (m0 m1 m2 : Mem)
    (hp : p1 ≠ p2) (h1 : fakeBook d1 p1 m0 = some m1) (h2 : fakeBook d2 p2 m1 = some m2) :
    m2.books p1 = m1.books p1 ∧
      (m2.books p1).Tags = (m2.books p2).Tags ∧
      readSlice m1 (m1.books p1).Tags = (List.range 10).map d1.word ∧
      readSlice m2 (m2.books p1).Tags = (List.range 10).map d2.word := by
  obtain ⟨m1', e1, hb1, _, _⟩ := fakeBook_spec d1 p1 m0
  obtain ⟨m2', e2, hb2, hf2, ha2⟩ := fakeBook_spec d2 p2 m1
  rw [h1] at e1; cases e1
  rw [h2] at e2; cases e2
  have hsame : m2.books p1 = m1.books p1 := hf2 p1 hp
  refine ⟨hsame, ?_, fakeBook_readTags d1 p1 m0 m1 h1, ?_⟩
  · rw [hsame, hb1, hb2]
  · rw [hsame, hb1]
    simp only [readSlice, tags]
    apply List.map_congr_left
    intro j hj
    rw [ha2 tagsArr j]
    simp [List.mem_range.mp hj]

theorem fakeBook_frame_and_shared_tags_witness :
    ∃ m1 m2, (1 : Addr) ≠ 2 ∧ fakeBook drawA 1 Mem.init = some m1 ∧
      fakeBook drawB 2 m1 = some m2 ∧
      (m2.books 1 = m1.books 1 ∧
        (m2.books 1).Tags = (m2.books 2).Tags ∧
        readSlice m1 (m1.books 1).Tags = (List.range 10).map drawA.word ∧
        readSlice m2 (m2.books 1).Tags = (List.range 10).map drawB.word) :=
  ⟨_, _, by decide, rfl, rfl,
    fakeBook_frame_and_shared_tags drawA drawB 1 2 Mem.init _ _ (by decide) rfl rfl⟩

/-! ## Insert workloads: proofs -/

theorem genBook_some (env : Env) (i : Nat) (s : St) :
    ∃ s', genBook env i s = some s' ∧ s'.log = s.log := by
  obtain ⟨m', h⟩ := fakeBook_isSome (env.draw i) env.bookAddr s.mem
  exact ⟨{ s with mem := m' }, by simp [genBook, h], rfl⟩

theorem pgInsertBody_next (env : Env) (k : Nat) (h : env.insertOk .pg k) :
    BodyNext (pgInsertBody env) k := by
  intro s
  obtain ⟨s1, h1, hl⟩ := genBook_some env k s
  obtain ⟨id, hid⟩ := h (s1.mem.books env.bookAddr) (tagsSeen s1 env.bookAddr)
  refine ⟨s1.emit (.insertCall k true), some id, ?_, ?_⟩
  · simp only [pgInsertBody, h1, hid]
  · simp [St.emit, hl]

theorem pgxInsertBody_next (env : Env) (k : Nat) (h : env.insertOk .pgx k) :
    BodyNext (pgxInsertBody env) k := by
  intro s
  obtain ⟨s1, h1, hl⟩ := genBook_some env k s
  obtain ⟨id, hid⟩ := h (s1.mem.books env.bookAddr) (tagsSeen s1 env.bookAddr)
  refine ⟨s1.emit (.insertCall k true), some id, ?_, ?_⟩
  · simp only [pgxInsertBody, h1, hid]
  · simp [St.emit, hl]

theorem pqInsertBody_next (env : Env) (k : Nat) (h : env.insertOk .pq k) :
    BodyNext (pqInsertBody env) k := by
  intro s
  obtain ⟨s1, h1, hl⟩ := genBook_some env k s
  obtain ⟨id, hid⟩ := h (s1.mem.books env.bookAddr) (tagsSeen s1 env.bookAddr)
  refine ⟨s1.emit (.insertCall k true), some id, ?_, ?_⟩
  · simp only [pqInsertBody, h1, hid]
  · simp [St.emit, hl]

theorem goPGInsertBody_next (env : Env) (k : Nat) (h : env.insertOk .goPG k) :
    BodyNext (goPGInsertBody env) k := by
  intro s
  obtain ⟨s1, h1, hl⟩ := genBook_some env k
    { s with mem := s.mem.setBook env.bookAddr { s.mem.books env.bookAddr with ID := 0 } }
  obtain ⟨id, hid⟩ := h (s1.mem.books env.bookAddr) (tagsSeen s1 env.bookAddr)
  simp only [goPGInsertBody, h1, hid]
  exact ⟨_, _, rfl, by simp [St.emit, hl]⟩

theorem mongoInsertBody_next (env : Env) (k : Nat) (h : env.insertOk .mongo k) :
    BodyNext (mongoInsertBody env) k := by
  intro s
  obtain ⟨s1, h1, hl⟩ := genBook_some env k s
  have hid := h (s1.mem.books env.bookAddr) (tagsSeen s1 env.bookAddr)
  refine ⟨s1.emit (.insertCall k true), none, ?_, ?_⟩
  · simp only [mongoInsertBody, h1, hid]
  · simp [St.emit, hl]

theorem body_next (env : Env) (w : InsertBackend) (k : Nat) (h : env.insertOk w k) :
    BodyNext (w.body env) k := by
  cases w
  · exact pgInsertBody_next env k h
  · exact pgxInsertBody_next env k h
  · exact pqInsertBody_next env k h
  · exact goPGInsertBody_next env k h
  · exact mongoInsertBody_next env k h

theorem body_fail (env : Env) (w : InsertBackend) (k : Nat) (h : env.insertFails w k) :
    BodyFail (w.body env) k := by
  intro s
  cases w
  · obtain ⟨s1, h1, hl⟩ := genBook_some env k s
    obtain ⟨e, he⟩ := h (s1.mem.books env.bookAddr) (tagsSeen s1 env.bookAddr)
    simp only [InsertBackend.body, pgInsertBody, h1, he]
    exact ⟨_, _, rfl, by simp [St.emit, hl]⟩
  · obtain ⟨s1, h1, hl⟩ := genBook_some env k s
    obtain ⟨e, he⟩ := h (s1.mem.books env.bookAddr) (tagsSeen s1 env.bookAddr)
    simp only [InsertBackend.body, pgxInsertBody, h1, he]
    exact ⟨_, _, rfl, by simp [St.emit, hl]⟩
  · obtain ⟨s1, h1, hl⟩ := genBook_some env k s
    obtain ⟨e, he⟩ := h (s1.mem.books env.bookAddr) (tagsSeen s1 env.bookAddr)
    simp only [InsertBackend.body, pqInsertBody, h1, he]
    exact ⟨_, _, rfl, by simp [St.emit, hl]⟩
  · obtain ⟨s1, h1, hl⟩ := genBook_some env k
      { s with mem := s.mem.setBook env.bookAddr { s.mem.books env.bookAddr with ID := 0 } }
    obtain ⟨e, he⟩ := h (s1.mem.books env.bookAddr) (tagsSeen s1 env.bookAddr)
    simp only [InsertBackend.body, goPGInsertBody, h1, he]
    exact ⟨_, _, rfl, by simp [St.emit, hl]⟩
  · obtain ⟨s1, h1, hl⟩ := genBook_some env k s
    obtain ⟨e, he⟩ := h (s1.mem.books env.bookAddr) (tagsSeen s1 env.bookAddr)
    simp only [InsertBackend.body, mongoInsertBody, h1, he]
    exact ⟨_, _, rfl, by simp [St.emit, hl]⟩

/-- Running `n` successful iterations from `i`: the loop reaches iteration
`i + n` having logged exactly the events of those iterations. -/
theorem insertLoop_prefix (cfg : Config) (body : Nat → St → St × BodyResult)
    (hb : 1 ≤ cfg.insertCount) (fuel : Nat) :
    ∀ (n i : Nat) (s : St), i + n ≤ cfg.totalInsertCount + 1 →
      (∀ j, i ≤ j → j < i + n → BodyNext body j) →
      ∃ s' ids, insertLoop cfg body (fuel + n) i s = insertLoop cfg body fuel (i + n) s' ∧
        s'.log = s.log ++ (List.range' i n).flatMap (iterEvents cfg ids) := by
  intro n
  induction n with
  | zero => intro i s _ _; exact ⟨s, fun _ => none, rfl, by simp⟩
  | succ n ih =>
    intro i s hle hbody
    obtain ⟨s1, id, h1, hl1⟩ := hbody i (le_refl i) (by omega) s
    have hi : i ≤ cfg.totalInsertCount := by omega
    have hne : cfg.insertCount ≠ 0 := by omega
    have key : ∀ s2 : St, s2.log = s.log ++ iterEvents cfg (fun _ => id) i →
        insertLoop cfg body (fuel + (n + 1)) i s = insertLoop cfg body (fuel + n) (i + 1) s2 →
        ∃ s' ids, insertLoop cfg body (fuel + (n + 1)) i s
            = insertLoop cfg body fuel (i + (n + 1)) s' ∧
          s'.log = s.log ++ (List.range' i (n + 1)).flatMap (iterEvents cfg ids) := by
      intro s2 hl2 hstep
      obtain ⟨s', ids, hrun, hl'⟩ := ih (i + 1) s2 (by omega)
        (fun j hj1 hj2 => hbody j (by omega) (by omega))
      refine ⟨s', fun j => if j = i then id else ids j, ?_, ?_⟩
      · rw [hstep, hrun]
        congr 1
        omega
      · have hhead : iterEvents cfg (fun j => if j = i then id else ids j) i
            = iterEvents cfg (fun _ => id) i := by
          simp [iterEvents]
        have htail : (List.range' (i + 1) n).flatMap
              (iterEvents cfg (fun j => if j = i then id else ids j))
            = (List.range' (i + 1) n).flatMap (iterEvents cfg ids) := by
          simp only [List.flatMap]
          congr 1
          apply List.map_congr_left
          intro j hj
          have : j ≠ i := by
            have := (List.mem_range'_1.mp hj).1
            omega
          simp [iterEvents, this]
        rw [hl', hl2, List.range'_succ, List.flatMap_cons, hhead, htail, List.append_assoc]
    by_cases hprog : 0 < i ∧ i % cfg.insertCount = 0
    · apply key (s1.emit (.progress i id))
      · simp [St.emit, hl1, iterEvents, isBatchEnd, hprog]
      · show insertLoop cfg body (fuel + n + 1) i s = _
        simp only [insertLoop, hi, if_true, h1, hprog.1, hne, hprog.2, if_false]
    · apply key s1
      · simp [hl1, iterEvents, isBatchEnd, hprog]
      · show insertLoop cfg body (fuel + n + 1) i s = _
        by_cases h0 : 0 < i
        · have hm : ¬ i % cfg.insertCount = 0 := fun h => hprog ⟨h0, h⟩
          simp only [insertLoop, hi, if_true, h1, h0, hne, hm, if_false]
        · simp only [insertLoop, hi, if_true, h1, h0, if_false]

theorem insertRun_ok (cfg : Config) (body : Nat → St → St × BodyResult)
    (hb : 1 ≤ cfg.insertCount) (s : St)
    (hbody : ∀ j, j ≤ cfg.totalInsertCount → BodyNext body j) :
    ∃ s' ids, insertRun cfg body s = (.returned, s') ∧
      s'.log = s.log ++ ((List.range' 0 (cfg.totalInsertCount + 1)).flatMap
        (iterEvents cfg ids) ++ [.insertFinished]) := by
  obtain ⟨s1, ids, hrun, hl⟩ := insertLoop_prefix cfg body hb 1 (cfg.totalInsertCount + 1) 0 s
    (by omega) (fun j _ hj => hbody j (by omega))
  have hfuel : cfg.totalInsertCount + 2 = 1 + (cfg.totalInsertCount + 1) := by omega
  have hend : insertLoop cfg body 1 (0 + (cfg.totalInsertCount + 1)) s1 = (.returned, s1) := by
    simp [insertLoop]
  refine ⟨s1.emit .insertFinished, ids, ?_, ?_⟩
  · simp only [insertRun, hfuel, hrun, hend]
  · simp [St.emit, hl]

theorem insertRun_fail (cfg : Config) (body : Nat → St → St × BodyResult)
    (hb : 1 ≤ cfg.insertCount) (s : St) (k : Nat) (hk : k ≤ cfg.totalInsertCount)
    (hbody : ∀ j, j < k → BodyNext body j) (hfail : BodyFail body k) :
    ∃ s' ids e, insertRun cfg body s = (.fatal, s') ∧
      s'.log = s.log ++ ((List.range' 0 k).flatMap (iterEvents cfg ids) ++
        [.insertCall k false, .fatal (some e)]) := by
  obtain ⟨s1, ids, hrun, hl⟩ := insertLoop_prefix cfg body hb
    (cfg.totalInsertCount - k + 2) k 0 s (by omega) (fun j _ hj => hbody j (by omega))
  obtain ⟨s2, e, h2, hl2⟩ := hfail s1
  have hfuel : cfg.totalInsertCount + 2 = cfg.totalInsertCount - k + 2 + k := by omega
  have hend : insertLoop cfg body (cfg.totalInsertCount - k + 2) (0 + k) s1
      = (.fatal, s2.emit (.fatal (some e))) := by
    show insertLoop cfg body (cfg.totalInsertCount - k + 1 + 1) (0 + k) s1 = _
    simp only [insertLoop, Nat.zero_add, hk, if_true, h2]
  refine ⟨s2.emit (.fatal (some e)), ids, e, ?_, ?_⟩
  · simp only [insertRun, hfuel, hrun, hend]
  · simp [St.emit, hl, hl2]

theorem run_of_insertRun_returned (env : Env) (cfg : Config) (w : InsertBackend) (s s' : St)
    (hs : env.setupOk w)
    (h : insertRun cfg (w.body env) (declBook env s) = (.returned, s')) :
    ∃ s'', w.run env cfg s = (.returned, s'') ∧ s''.log = s'.log ++ w.closing := by
  cases w <;> simp only [InsertBackend.body] at h
  · have h1 : env.pgOpen = none := hs
    refine ⟨s', ?_, by simp [InsertBackend.closing]⟩
    simp only [InsertBackend.run, pgInsert, h1, h]
  · obtain ⟨h1, h2⟩ := hs
    refine ⟨s', ?_, by simp [InsertBackend.closing]⟩
    simp only [InsertBackend.run, pgxInsert, h1, h2, h]
  · obtain ⟨h1, h2⟩ := hs
    refine ⟨s', ?_, by simp [InsertBackend.closing]⟩
    simp only [InsertBackend.run, pqInsert, h1, h2, h]
  · refine ⟨s'.emit .dbClose, ?_, by simp [InsertBackend.closing, St.emit]⟩
    simp only [InsertBackend.run, goPGInsert, h]
  · have h1 : env.mongoDial = none := hs
    refine ⟨s', ?_, by simp [InsertBackend.closing]⟩
    simp only [InsertBackend.run, mongoInsert, h1, h]

theorem run_of_insertRun_fatal (env : Env) (cfg : Config) (w : InsertBackend) (s s' : St)
    (hs : env.setupOk w)
    (h : insertRun cfg (w.body env) (declBook env s) = (.fatal, s')) :
    w.run env cfg s = (.fatal, s') := by
  cases w <;> simp only [InsertBackend.body] at h
  · have h1 : env.pgOpen = none := hs
    simp only [InsertBackend.run, pgInsert, h1, h]
  · obtain ⟨h1, h2⟩ := hs
    simp only [InsertBackend.run, pgxInsert, h1, h2, h]
  · obtain ⟨h1, h2⟩ := hs
    simp only [InsertBackend.run, pqInsert, h1, h2, h]
  · simp only [InsertBackend.run, goPGInsert, h]
  · have h1 : env.mongoDial = none := hs
    simp only [InsertBackend.run, mongoInsert, h1, h]

/-- The log of an insert workload whose setup and insert calls succeed. -/
theorem insert_ok_log (env : Env) (cfg : Config) (w : InsertBackend) (s : St)
    (hb : 1 ≤ cfg.insertCount) (hs : env.setupOk w)
    (hok : ∀ k, k ≤ cfg.totalInsertCount → env.insertOk w k) :
    ∃ s' ids, w.run env cfg s = (.returned, s') ∧
      s'.log = s.log ++ ((List.range' 0 (cfg.totalInsertCount + 1)).flatMap
        (iterEvents cfg ids) ++ .insertFinished :: w.closing) := by
  obtain ⟨s1, ids, h1, hl1⟩ := insertRun_ok cfg (w.body env) hb (declBook env s)
    (fun j hj => body_next env w j (hok j hj))
  obtain ⟨s2, h2, hl2⟩ := run_of_insertRun_returned env cfg w s s1 hs h1
  refine ⟨s2, ids, h2, ?_⟩
  rw [hl2, hl1]
  simp [declBook]

/-- The log of an insert workload whose insert call fails in iteration `k`
after succeeding in all iterations before. -/
theorem insert_fail_log (env : Env) (cfg : Config) (w : InsertBackend) (s : St)
    (hb : 1 ≤ cfg.insertCount) (hs : env.setupOk w) (k : Nat)
    (hk : k ≤ cfg.totalInsertCount)
    (hok : ∀ j, j < k → env.insertOk w j) (hfail : env.insertFails w k) :
    ∃ s' ids e, w.run env cfg s = (.fatal, s') ∧
      s'.log = s.log ++ ((List.range' 0 k).flatMap (iterEvents cfg ids) ++
        [.insertCall k false, .fatal (some e)]) := by
  obtain ⟨s1, ids, e, h1, hl1⟩ := insertRun_fail cfg (w.body env) hb (declBook env s) k hk
    (fun j hj => body_next env w j (hok j hj)) (body_fail env w k hfail)
  refine ⟨s1, ids, e, run_of_insertRun_fatal env cfg w s s1 hs h1, ?_⟩
  rw [hl1]
  simp [declBook]

/-! ### Reading calls and progress lines off a log -/

theorem insertCallsOf_append (l1 l2 : List Event) :
    insertCallsOf (l1 ++ l2) = insertCallsOf l1 ++ insertCallsOf l2 := by
  simp [insertCallsOf, List.filterMap_append]

theorem progressOf_append (l1 l2 : List Event) :
    progressOf (l1 ++ l2) = progressOf l1 ++ progressOf l2 := by
  simp [progressOf, List.filterMap_append]

theorem insertCallsOf_iter (cfg : Config) (ids : Nat → Option Nat) :
    ∀ (n i : Nat), insertCallsOf ((List.range' i n).flatMap (iterEvents cfg ids))
      = (List.range' i n).map (fun j => (j, true)) := by
  intro n
  induction n with
  | zero => intro i; simp [insertCallsOf]
  | succ n ih =>
    intro i
    rw [List.range'_succ, List.flatMap_cons, insertCallsOf_append, ih (i + 1)]
    by_cases h : isBatchEnd cfg i <;> simp [iterEvents, insertCallsOf, h]

theorem progressOf_iter (cfg : Config) (ids : Nat → Option Nat) :
    ∀ (n i : Nat), progressOf ((List.range' i n).flatMap (iterEvents cfg ids))
      = (List.range' i n).filter (isBatchEnd cfg) := by
  intro n
  induction n with
  | zero => intro i; simp [progressOf]
  | succ n ih =>
    intro i
    rw [List.range'_succ, List.flatMap_cons, progressOf_append, ih (i + 1)]
    by_cases h : isBatchEnd cfg i <;> simp [iterEvents, progressOf, h]

/-- Among the iterations `0..T` exactly `T / b` are positive multiples of `b`. -/
theorem batchEnd_count (cfg : Config) :
    ∀ T : Nat, ((List.range (T + 1)).filter (isBatchEnd cfg)).length = T / cfg.insertCount := by
  intro T
  induction T with
  | zero => simp [isBatchEnd]
  | succ T ih =>
    rw [List.range_succ, List.filter_append, List.length_append, ih, Nat.succ_div]
    congr 1
    by_cases hd : cfg.insertCount ∣ T + 1
    · have hm : (T + 1) % cfg.insertCount = 0 := Nat.mod_eq_zero_of_dvd hd
      simp [isBatchEnd, hd, hm]
    · have hm : ¬ (T + 1) % cfg.insertCount = 0 := fun h => hd (Nat.dvd_of_mod_eq_zero h)
      simp [isBatchEnd, hd, hm]

theorem mem_iter_cases (cfg : Config) (ids : Nat → Option Nat) (l : List Nat) (e : Event)
    (h : e ∈ l.flatMap (iterEvents cfg ids)) :
    (∃ i, i ∈ l ∧ e = .insertCall i true) ∨ (∃ i, i ∈ l ∧ e = .progress i (ids i)) := by
  rw [List.mem_flatMap] at h
  obtain ⟨i, hi, he⟩ := h
  by_cases hbe : isBatchEnd cfg i
  · simp only [iterEvents, hbe, if_true, List.mem_cons, List.mem_singleton,
      List.not_mem_nil, or_false] at he
    rcases he with he | he
    · exact Or.inl ⟨i, hi, he⟩
    · exact Or.inr ⟨i, hi, he⟩
  · simp only [iterEvents, hbe, List.mem_cons, List.not_mem_nil, or_false] at he
    exact Or.inl ⟨i, hi, by simpa using he⟩

theorem insertFinished_not_mem_iter (cfg : Config) (ids : Nat → Option Nat) (l : List Nat) :
    Event.insertFinished ∉ l.flatMap (iterEvents cfg ids) := by
  intro h
  rcases mem_iter_cases cfg ids l _ h with ⟨i, _, he⟩ | ⟨i, _, he⟩ <;> cases he

/-! ## Insert workloads: the claims -/

/-- C1: for every `totalCount`, every `batchSize >= 1` and every adapter whose
setup and insert calls succeed, each of the five insert workloads returns
having made exactly `totalCount + 1` adapter insert calls (iterations
`0..totalCount`, all successful), having emitted a progress line exactly at the
iterations `i` with `i > 0` and `i % batchSize = 0`, which are
`totalCount / batchSize` many, and then exactly one summary line; nothing the
workload emits after the summary line is a call, a progress line or a summary
line. -/
theorem insert_workload_counts (env : Env) (cfg : Config) (w : InsertBackend) (s : St)
    (hb : 1 ≤ cfg.insertCount) (hs : env.setupOk w)
    (hok : ∀ k, k ≤ cfg.totalInsertCount → env.insertOk w k) :
    ∃ s' pre, w.run env cfg s = (.returned, s') ∧
      s'.log = s.log ++ (pre ++ .insertFinished :: w.closing) ∧
      insertCallsOf pre = (List.range (cfg.totalInsertCount + 1)).map (fun i => (i, true)) ∧
      (insertCallsOf pre).length = cfg.totalInsertCount + 1 ∧
      progressOf pre = (List.range (cfg.totalInsertCount + 1)).filter
        (fun i => decide (0 < i ∧ i % cfg.insertCount = 0)) ∧
      (progressOf pre).length = cfg.totalInsertCount / cfg.insertCount ∧
      Event.insertFinished ∉ pre ∧
      insertCallsOf w.closing = [] ∧ progressOf w.closing = [] ∧
      Event.insertFinished ∉ w.closing := by
  obtain ⟨s', ids, hrun, hl⟩ := insert_ok_log env cfg w s hb hs hok
  have hc := insertCallsOf_iter cfg ids (cfg.totalInsertCount + 1) 0
  have hp := progressOf_iter cfg ids (cfg.totalInsertCount + 1) 0
  rw [← List.range_eq_range'] at hc hp
  refine ⟨s', _, hrun, hl, ?_, ?_, ?_, ?_, ?_, ?_, ?_, ?_⟩
  · rw [← List.range_eq_range']; exact hc
  · rw [← List.range_eq_range', hc]; simp
  · rw [← List.range_eq_range']; exact hp
  · rw [← List.range_eq_range', hp]; exact batchEnd_count cfg cfg.totalInsertCount
  · exact insertFinished_not_mem_iter cfg ids _
  · cases w <;> rfl
  · cases w <;> rfl
  · cases w <;> simp [InsertBackend.closing]

/-- C1, scenario A of the specification (`totalCount = 25`, `batchSize = 10`,
mock adapter returning sequential identifiers): 26 calls, progress lines at
iterations 10 and 20, one summary line; and the constants of the program
(100000, 10000): 100001 calls and 10 progress lines. -/
theorem insert_workload_counts_witness :
    (1 ≤ scenarioA.insertCount ∧ mockEnv.setupOk .pg ∧
      (∀ k, k ≤ scenarioA.totalInsertCount → mockEnv.insertOk .pg k)) ∧
    (∃ s' pre, InsertBackend.pg.run mockEnv scenarioA St.init = (.returned, s') ∧
      s'.log = pre ++ [.insertFinished] ∧
      (insertCallsOf pre).length = 26 ∧ progressOf pre = [10, 20]) ∧
    (∃ s' pre, InsertBackend.pg.run mockEnv defaultConfig St.init = (.returned, s') ∧
      s'.log = pre ++ [.insertFinished] ∧
      (insertCallsOf pre).length = 100001 ∧ (progressOf pre).length = 10) := by
  have hok : ∀ (cfg : Config) (k : Nat), k ≤ cfg.totalInsertCount → mockEnv.insertOk .pg k :=
    fun _ k _ _ _ => ⟨k + 1, rfl⟩
  refine ⟨⟨by decide, rfl, hok scenarioA⟩, ?_, ?_⟩
  · obtain ⟨s', pre, h1, h2, _, h4, h5, _⟩ :=
      insert_workload_counts mockEnv scenarioA .pg St.init (by decide) rfl (hok scenarioA)
    refine ⟨s', pre, h1, by simpa [St.init, InsertBackend.closing] using h2, h4, ?_⟩
    rw [h5]; decide
  · obtain ⟨s', pre, h1, h2, _, h4, _, h6, _⟩ :=
      insert_workload_counts mockEnv defaultConfig .pg St.init (by decide) rfl (hok defaultConfig)
    refine ⟨s', pre, h1, by simpa [St.init, InsertBackend.closing] using h2, h4, ?_⟩
    rw [h6]; rfl

/-- C2: if the first `k - 1` insert calls succeed and the `k`-th fails
(`1 <= k <= totalCount + 1`), each insert workload aborts with `log.Fatal` at
the `k`-th call: the calls made are those of iterations `0..k-1`, so `k` in
total, of which exactly the first `k - 1` succeeded; the failing call is
followed by nothing but the fatal abort, so no adapter call comes after it,
the progress lines are those of iterations before `k - 1` only, and there is
no summary line. -/
theorem insert_workload_aborts (env : Env) (cfg : Config) (w : InsertBackend) (s : St)
    (k : Nat) (hb : 1 ≤ cfg.insertCount) (hs : env.setupOk w)
    (hk1 : 1 ≤ k) (hk2 : k ≤ cfg.totalInsertCount + 1)
    (hok : ∀ j, j + 1 < k → env.insertOk w j) (hfail : env.insertFails w (k - 1)) :
    ∃ s' pre e, w.run env cfg s = (.fatal, s') ∧
      s'.log = s.log ++ (pre ++ [.insertCall (k - 1) false, .fatal (some e)]) ∧
      insertCallsOf (pre ++ [.insertCall (k - 1) false, .fatal (some e)])
        = (List.range (k - 1)).map (fun i => (i, true)) ++ [(k - 1, false)] ∧
      (insertCallsOf (pre ++ [.insertCall (k - 1) false, .fatal (some e)])).length = k ∧
      ((insertCallsOf (pre ++ [.insertCall (k - 1) false, .fatal (some e)])).filter
        (fun c => c.2)).length = k - 1 ∧
      progressOf (pre ++ [.insertCall (k - 1) false, .fatal (some e)])
        = (List.range (k - 1)).filter (fun i => decide (0 < i ∧ i % cfg.insertCount = 0)) ∧
      Event.insertFinished ∉ pre ++ [.insertCall (k - 1) false, .fatal (some e)] := by
  obtain ⟨s', ids, e, hrun, hl⟩ := insert_fail_log env cfg w s hb hs (k - 1) (by omega)
    (fun j hj => hok j (by omega)) hfail
  have hc := insertCallsOf_iter cfg ids (k - 1) 0
  have hp := progressOf_iter cfg ids (k - 1) 0
  rw [← List.range_eq_range'] at hc hp
  have hcalls : insertCallsOf ((List.range' 0 (k - 1)).flatMap (iterEvents cfg ids) ++
      [.insertCall (k - 1) false, .fatal (some e)])
      = (List.range (k - 1)).map (fun i => (i, true)) ++ [(k - 1, false)] := by
    rw [insertCallsOf_append, ← List.range_eq_range', hc]
    rfl
  refine ⟨s', _, e, hrun, hl, hcalls, ?_, ?_, ?_, ?_⟩
  · rw [hcalls]; simp; omega
  · rw [hcalls, List.filter_append]
    have : ((List.range (k - 1)).map (fun i => (i, true))).filter (fun c => c.2)
        = (List.range (k - 1)).map (fun i => (i, true)) := by
      apply List.filter_eq_self.mpr
      intro c hc
      obtain ⟨i, _, rfl⟩ := List.mem_map.mp hc
      rfl
    rw [this]
    simp
  · rw [progressOf_append, ← List.range_eq_range', hp]
    simp only [progressOf, List.filterMap_cons, List.filterMap_nil, List.append_nil]
    rfl
  · intro h
    rcases List.mem_append.mp h with h | h
    · exact insertFinished_not_mem_iter cfg ids _ h
    · simp at h

/-- C2, fatal-path scenario of the specification: the mock adapter fails on
the 5th invocation; the run aborts after exactly 4 successful inserts and 5
calls in total. -/
theorem insert_workload_aborts_witness :
    (1 ≤ scenarioA.insertCount ∧ failingEnv.setupOk .pq ∧ 1 ≤ 5 ∧
      5 ≤ scenarioA.totalInsertCount + 1 ∧
      (∀ j, j + 1 < 5 → failingEnv.insertOk .pq j) ∧ failingEnv.insertFails .pq (5 - 1)) ∧
    (∃ s' new, InsertBackend.pq.run failingEnv scenarioA St.init = (.fatal, s') ∧
      s'.log = new ∧
      insertCallsOf new = [(0, true), (1, true), (2, true), (3, true), (4, false)] ∧
      progressOf new = [] ∧ Event.insertFinished ∉ new) := by
  have hok : ∀ j, j + 1 < 5 → failingEnv.insertOk .pq j := by
    intro j hj b t
    have : j ≠ 4 := by omega
    exact ⟨j + 1, by simp [failingEnv, this]⟩
  have hfail : failingEnv.insertFails .pq (5 - 1) := fun b t => ⟨.other 1, rfl⟩
  have hs : failingEnv.setupOk .pq := ⟨rfl, rfl⟩
  refine ⟨⟨by decide, hs, by decide, by decide, hok, hfail⟩, ?_⟩
  obtain ⟨s', pre, e, h1, h2, h3, _, _, h6, h7⟩ :=
    insert_workload_aborts failingEnv scenarioA .pq St.init 5 (by decide) hs
      (by decide) (by decide) hok hfail
  exact ⟨s', _, h1, by simpa [St.init] using h2, by rw [h3]; rfl, by rw [h6]; decide, h7⟩

/-! ## Select workloads: proofs -/

theorem drain_found (p : Addr) :
    ∀ (rows : List Book) (m : Mem) (found : Nat),
      (drain p rows m found).2 = found + rows.length := by
  intro rows
  induction rows with
  | nil => intro m found; rfl
  | cons r rest ih =>
    intro m found
    simp only [drain, ih, List.length_cons]
    omega

theorem pgSelectBody_eq (env : Env) (err : Option Err) (i : Nat) (s : St) (found : Nat) :
    pgSelectBody env err i s found =
      if (env.pgFind i).err ≠ none ∧ (env.pgFind i).err ≠ some Err.ErrNoMoreRows then
        .fatal { mem := (drain env.bookAddr (env.pgFind i).rows s.mem found).1,
                 log := s.log ++ [.selectCall i, .fatal err] }
      else
        .next { mem := (drain env.bookAddr (env.pgFind i).rows s.mem found).1,
                log := s.log ++ [.selectCall i] } (found + (env.pgFind i).rows.length) := by
  by_cases h1 : (env.pgFind i).err = none
  · simp [pgSelectBody, h1, St.emit, drain_found]
  · by_cases h2 : (env.pgFind i).err = some Err.ErrNoMoreRows
    · simp [pgSelectBody, h2, St.emit, drain_found]
    · simp [pgSelectBody, h1, h2, St.emit]

theorem mongoSelectBody_eq (env : Env) (i : Nat) (s : St) (found : Nat) :
    mongoSelectBody env i s found =
      if (env.mongoFind i).err ≠ none ∧ (env.mongoFind i).err ≠ some Err.ErrNotFound then
        .fatal { mem := (drain env.bookAddr (env.mongoFind i).rows s.mem found).1,
                 log := s.log ++ [.selectCall i, .fatal (env.mongoFind i).err] }
      else
        .next { mem := (drain env.bookAddr (env.mongoFind i).rows s.mem found).1,
                log := s.log ++ [.selectCall i] } (found + (env.mongoFind i).rows.length) := by
  by_cases h1 : (env.mongoFind i).err = none
  · simp [mongoSelectBody, h1, St.emit, drain_found]
  · by_cases h2 : (env.mongoFind i).err = some Err.ErrNotFound
    · simp [mongoSelectBody, h2, St.emit, drain_found]
    · simp [mongoSelectBody, h1, h2, St.emit]

/-- The cursor of iteration `i` reports an error other than the sentinel. -/
theorem not_cursorEndsOk_iff (env : Env) (w : SelectBackend) (i : Nat) :
    ¬ env.cursorEndsOk w i ↔ ∃ e, (w.cursor env i).err = some e ∧ e ≠ w.sentinel := by
  unfold Env.cursorEndsOk
  rcases (w.cursor env i).err with _ | e
  · simp
  · simp only [reduceCtorEq, Option.some.injEq, false_or, ne_eq, exists_eq_left']

/-- One iteration of a select loop whose cursor ends without error or with
the sentinel: one select call, `found` grows by the rows yielded, go on. -/
theorem selectBody_next (env : Env) (w : SelectBackend) (i : Nat) (s : St) (found : Nat)
    (h : env.cursorEndsOk w i) :
    ∃ s', w.body env i s found = .next s' (found + (w.cursor env i).rows.length) ∧
      s'.log = s.log ++ [.selectCall i] := by
  cases w
  · have hn : ¬ ((env.pgFind i).err ≠ none ∧ (env.pgFind i).err ≠ some Err.ErrNoMoreRows) := by
      rcases h with h | h <;> simp [SelectBackend.cursor, SelectBackend.sentinel] at h <;>
        simp [h]
    simp only [SelectBackend.body, SelectBackend.cursor]
    rw [pgSelectBody_eq, if_neg hn]
    exact ⟨_, rfl, rfl⟩
  · have hn : ¬ ((env.mongoFind i).err ≠ none ∧
        (env.mongoFind i).err ≠ some Err.ErrNotFound) := by
      rcases h with h | h <;> simp [SelectBackend.cursor, SelectBackend.sentinel] at h <;>
        simp [h]
    simp only [SelectBackend.body, SelectBackend.cursor]
    rw [mongoSelectBody_eq, if_neg hn]
    exact ⟨_, rfl, rfl⟩

/-- One iteration of a select loop whose cursor reports an error other than
the sentinel: one select call, then `log.Fatal`. -/
theorem selectBody_fatal (env : Env) (w : SelectBackend) (i : Nat) (s : St) (found : Nat)
    (h : ¬ env.cursorEndsOk w i) :
    ∃ s', w.body env i s found = .fatal s' ∧
      s'.log = s.log ++ [.selectCall i, .fatal (w.fatalArg env i)] := by
  cases w
  · have hn : (env.pgFind i).err ≠ none ∧ (env.pgFind i).err ≠ some Err.ErrNoMoreRows := by
      simpa [Env.cursorEndsOk, SelectBackend.cursor, SelectBackend.sentinel] using h
    simp only [SelectBackend.body]
    rw [pgSelectBody_eq, if_pos hn]
    exact ⟨_, rfl, rfl⟩
  · have hn : (env.mongoFind i).err ≠ none ∧ (env.mongoFind i).err ≠ some Err.ErrNotFound := by
      simpa [Env.cursorEndsOk, SelectBackend.cursor, SelectBackend.sentinel] using h
    simp only [SelectBackend.body]
    rw [mongoSelectBody_eq, if_pos hn]
    exact ⟨_, rfl, rfl⟩

/-- Running `n` iterations from `i` whose cursors all end without a fatal
error: the loop reaches iteration `i + n`, having made exactly those select
calls and added the rows they yielded to `found`. -/
theorem selectLoop_prefix (env : Env) (cfg : Config) (w : SelectBackend) (fuel : Nat) :
    ∀ (n i : Nat) (s : St) (found : Nat), i + n ≤ cfg.selectCount →
      (∀ j, i ≤ j → j < i + n → env.cursorEndsOk w j) →
      ∃ s', selectLoop cfg (w.body env) (fuel + n) i s found
          = selectLoop cfg (w.body env) fuel (i + n) s'
              (found + ((List.range' i n).map fun j => (w.cursor env j).rows.length).sum) ∧
        s'.log = s.log ++ (List.range' i n).map Event.selectCall := by
  intro n
  induction n with
  | zero => intro i s found _ _; exact ⟨s, by simp, by simp⟩
  | succ n ih =>
    intro i s found hle hok
    obtain ⟨s1, h1, hl1⟩ := selectBody_next env w i s found (hok i (le_refl i) (by omega))
    obtain ⟨s', hrun, hl'⟩ := ih (i + 1) s1 (found + (w.cursor env i).rows.length) (by omega)
      (fun j hj1 hj2 => hok j (by omega) (by omega))
    have hi : i < cfg.selectCount := by omega
    refine ⟨s', ?_, ?_⟩
    · show selectLoop cfg (w.body env) (fuel + n + 1) i s found = _
      simp only [selectLoop, hi, if_true, h1, hrun, List.range'_succ, List.map_cons,
        List.sum_cons]
      congr 1
      · omega
      · omega
    · rw [hl', hl1, List.range'_succ, List.map_cons, List.append_assoc]
      rfl

/-- The loop of a select workload whose cursors all end without a fatal
error, run from the state in which the workload enters it: it returns, having
made the select calls of iterations `0..selectCount-1`, with `found` equal to
the number of rows the cursors yielded. -/
theorem select_loop_ok (env : Env) (cfg : Config) (w : SelectBackend) (s : St)
    (hok : ∀ i, i < cfg.selectCount → env.cursorEndsOk w i) :
    ∃ s1, selectLoop cfg (w.body env) (cfg.selectCount + 1) 0 (declBook env s) 0
        = (.returned, s1, rowsYielded w env cfg.selectCount) ∧
      s1.log = s.log ++ (List.range cfg.selectCount).map Event.selectCall := by
  obtain ⟨s1, hrun, hl⟩ := selectLoop_prefix env cfg w 1 cfg.selectCount 0 (declBook env s) 0
    (by omega) (fun j _ hj => hok j (by omega))
  have hfuel : cfg.selectCount + 1 = 1 + cfg.selectCount := by omega
  have hend : ∀ f, selectLoop cfg (w.body env) 1 cfg.selectCount s1 f
      = (.returned, s1, f) := by
    intro f; simp [selectLoop]
  refine ⟨s1, ?_, ?_⟩
  · simp only [hfuel, hrun, rowsYielded, List.range_eq_range', Nat.zero_add, hend]
  · simp [hl, declBook, List.range_eq_range']

/-- A select workload whose setup succeeds is its loop and summary line. -/
theorem select_run_eq (env : Env) (cfg : Config) (w : SelectBackend) (s : St)
    (hs : env.selectSetupOk w) :
    w.run env cfg s = selectRun cfg (w.body env) (declBook env s) := by
  cases w
  · have h1 : env.pgOpenSel = none := hs
    simp only [SelectBackend.run, SelectBackend.body, pgSelect, h1]
  · have h1 : env.mongoDialSel = none := hs
    simp only [SelectBackend.run, SelectBackend.body, mongoSelect, h1]

/-- The log of a select workload with at least one iteration whose setup
succeeds and whose cursors all end without a fatal error. -/
theorem select_ok_log (env : Env) (cfg : Config) (w : SelectBackend) (s : St)
    (hpos : 0 < cfg.selectCount)
    (hs : env.selectSetupOk w) (hok : ∀ i, i < cfg.selectCount → env.cursorEndsOk w i) :
    ∃ s', w.run env cfg s = (.returned, s') ∧
      s'.log = s.log ++ ((List.range cfg.selectCount).map Event.selectCall ++
        [.selectSummary (rowsYielded w env cfg.selectCount)]) := by
  obtain ⟨s1, hloop, hl⟩ := select_loop_ok env cfg w s hok
  have hne : cfg.selectCount ≠ 0 := by omega
  refine ⟨s1.emit (.selectSummary (rowsYielded w env cfg.selectCount)), ?_, ?_⟩
  · rw [select_run_eq env cfg w s hs]
    simp only [selectRun, hloop]
    rw [if_neg hne]
  · simp [St.emit, hl]

/-- With `selectCount = 0` a select workload whose setup succeeds makes no
select call and panics in the arguments of its summary line. -/
theorem select_zero_log (env : Env) (cfg : Config) (w : SelectBackend) (s : St)
    (hz : cfg.selectCount = 0) (hs : env.selectSetupOk w) :
    ∃ s', w.run env cfg s = (.panicked, s') ∧
      s'.log = s.log ++ [.panic "integer divide by zero"] := by
  obtain ⟨s1, hloop, hl⟩ := select_loop_ok env cfg w s (fun i hi => by omega)
  refine ⟨s1.emit (.panic "integer divide by zero"), ?_, ?_⟩
  · rw [select_run_eq env cfg w s hs]
    simp only [selectRun, hloop]
    rw [if_pos hz]
  · simp [St.emit, hl, hz]

theorem rowsYielded_le (env : Env) (w : SelectBackend) (c : Nat) :
    ∀ n, (∀ i, i < n → (w.cursor env i).rows.length ≤ c) → rowsYielded w env n ≤ n * c := by
  intro n
  induction n with
  | zero => intro _; simp [rowsYielded]
  | succ n ih =>
    intro h
    have h1 := ih (fun i hi => h i (by omega))
    have h2 := h n (by omega)
    simp only [rowsYielded, List.range_succ, List.map_append, List.sum_append, List.map_cons,
      List.map_nil, List.sum_cons, List.sum_nil] at h1 ⊢
    rw [Nat.succ_mul]
    omega

theorem rowsYielded_eq (env : Env) (w : SelectBackend) (c : Nat) :
    ∀ n, (∀ i, i < n → (w.cursor env i).rows.length = c) → rowsYielded w env n = n * c := by
  intro n
  induction n with
  | zero => intro _; simp [rowsYielded]
  | succ n ih =>
    intro h
    have h1 := ih (fun i hi => h i (by omega))
    have h2 := h n (by omega)
    simp only [rowsYielded, List.range_succ, List.map_append, List.sum_append, List.map_cons,
      List.map_nil, List.sum_cons, List.sum_nil] at h1 ⊢
    rw [Nat.succ_mul]
    omega

/-! ## Select workloads: the claims -/

/-- C3: for every `selectCount` and every select adapter whose setup succeeds
and whose calls never fail fatally, the loop of `pgSelect` and of `mongoSelect`
runs to its end and the counter `found` then equals the total number of rows
yielded by the cursors of all `selectCount` calls; hence `0 <= found`,
`found <= selectCount * 100` when every call yields at most 100 rows, and
`found = selectCount * 100` when every call yields exactly 100 rows. What
follows the loop: for `selectCount >= 1` the workload returns after printing
that `found` in its one summary line; for `selectCount = 0` (where `found = 0`)
the division `took/selectCount` in the arguments of the summary line panics
and no line is printed. -/
theorem select_found_total (env : Env) (cfg : Config) (w : SelectBackend) (s : St)
    (hs : env.selectSetupOk w) (hok : ∀ i, i < cfg.selectCount → env.cursorEndsOk w i) :
    ∃ s1 found,
      selectLoop cfg (w.body env) (cfg.selectCount + 1) 0 (declBook env s) 0
        = (.returned, s1, found) ∧
      s1.log = s.log ++ (List.range cfg.selectCount).map Event.selectCall ∧
      found = ((List.range cfg.selectCount).map fun i => (w.cursor env i).rows.length).sum ∧
      0 ≤ found ∧
      ((∀ i, i < cfg.selectCount → (w.cursor env i).rows.length ≤ 100) →
        found ≤ cfg.selectCount * 100) ∧
      ((∀ i, i < cfg.selectCount → (w.cursor env i).rows.length = 100) →
        found = cfg.selectCount * 100) ∧
      (0 < cfg.selectCount →
        w.run env cfg s = (.returned, s1.emit (.selectSummary found))) ∧
      (cfg.selectCount = 0 →
        w.run env cfg s = (.panicked, s1.emit (.panic "integer divide by zero"))) := by
  obtain ⟨s1, hloop, hl⟩ := select_loop_ok env cfg w s hok
  refine ⟨s1, rowsYielded w env cfg.selectCount, hloop, hl, rfl, Nat.zero_le _,
    rowsYielded_le env w 100 cfg.selectCount, rowsYielded_eq env w 100 cfg.selectCount,
    ?_, ?_⟩
  · intro hpos
    have hne : cfg.selectCount ≠ 0 := by omega
    rw [select_run_eq env cfg w s hs]
    simp only [selectRun, hloop]
    rw [if_neg hne]
  · intro hz
    rw [select_run_eq env cfg w s hs]
    simp only [selectRun, hloop]
    rw [if_pos hz]

/-- C3, scenario B of the specification: `selectCount = 3`, a mock returning
exactly 100 rows per call, gives `found = 300` and one summary line. -/
theorem select_found_total_witness :
    (mockEnv.selectSetupOk .pg ∧
      (∀ i, i < scenarioA.selectCount → mockEnv.cursorEndsOk .pg i) ∧
      (∀ i, i < scenarioA.selectCount →
        (SelectBackend.pg.cursor mockEnv i).rows.length = 100) ∧
      0 < scenarioA.selectCount) ∧
    ∃ s', SelectBackend.pg.run mockEnv scenarioA St.init = (.returned, s') ∧
      s'.log = [.selectCall 0, .selectCall 1, .selectCall 2, .selectSummary 300] := by
  have hok : ∀ i, i < scenarioA.selectCount → mockEnv.cursorEndsOk .pg i :=
    fun _ _ => Or.inr rfl
  have hrows : ∀ i, i < scenarioA.selectCount →
      (SelectBackend.pg.cursor mockEnv i).rows.length = 100 :=
    fun _ _ => List.length_replicate 100 Book.zero
  refine ⟨⟨rfl, hok, hrows, by decide⟩, ?_⟩
  obtain ⟨s1, found, _, h2, _, _, _, h6, h7, _⟩ :=
    select_found_total mockEnv scenarioA .pg St.init rfl hok
  have hf : found = 300 := h6 hrows
  subst hf
  exact ⟨_, h7 (by decide), by simp [St.emit, h2, St.init]; decide⟩

/-- C5: in an iteration of `pgSelect` or `mongoSelect`, after the cursor is
drained the run aborts if and only if the cursor reports an error that is
present and different from the backend's no-more-rows sentinel; then the loop
ends the process. When the cursor reports no error or exactly the sentinel,
the iteration ends normally with `found` increased by the rows it counted and
the loop proceeds to the next iteration. -/
theorem select_iteration_abort_iff (env : Env) (cfg : Config) (w : SelectBackend)
    (fuel i : Nat) (s : St) (found : Nat) (hi : i < cfg.selectCount) :
    ((∃ s', w.body env i s found = .fatal s') ↔
      ∃ e, (w.cursor env i).err = some e ∧ e ≠ w.sentinel) ∧
    ((∃ e, (w.cursor env i).err = some e ∧ e ≠ w.sentinel) →
      ∃ s', selectLoop cfg (w.body env) (fuel + 1) i s found = (.fatal, s', found)) ∧
    ((w.cursor env i).err = none ∨ (w.cursor env i).err = some w.sentinel →
      ∃ s', w.body env i s found = .next s' (found + (w.cursor env i).rows.length) ∧
        selectLoop cfg (w.body env) (fuel + 1) i s found
          = selectLoop cfg (w.body env) fuel (i + 1) s'
              (found + (w.cursor env i).rows.length)) := by
  refine ⟨⟨?_, ?_⟩, ?_, ?_⟩
  · rintro ⟨s', hf⟩
    rw [← not_cursorEndsOk_iff]
    intro hok
    obtain ⟨s1, h1, _⟩ := selectBody_next env w i s found hok
    rw [h1] at hf
    cases hf
  · intro h
    obtain ⟨s', hf, _⟩ := selectBody_fatal env w i s found
      ((not_cursorEndsOk_iff env w i).mpr h)
    exact ⟨s', hf⟩
  · intro h
    obtain ⟨s', hf, _⟩ := selectBody_fatal env w i s found
      ((not_cursorEndsOk_iff env w i).mpr h)
    exact ⟨s', by simp only [selectLoop, hi, if_true, hf]⟩
  · intro h
    obtain ⟨s', h1, _⟩ := selectBody_next env w i s found h
    exact ⟨s', h1, by simp only [selectLoop, hi, if_true, h1]⟩

/-- C5 at a concrete iteration: the mock `mgo` cursor ends with
`mgo.ErrNotFound`, so iteration 0 of `mongoSelect` counts its 100 rows and the
loop goes on with iteration 1. -/
theorem select_iteration_abort_iff_witness :
    (0 < scenarioA.selectCount ∧
      (SelectBackend.mongo.cursor mockEnv 0).err = some SelectBackend.mongo.sentinel) ∧
    (¬ ∃ s', SelectBackend.mongo.body mockEnv 0 St.init 0 = .fatal s') ∧
    ∃ s', selectLoop scenarioA (SelectBackend.mongo.body mockEnv) (3 + 1) 0 St.init 0
      = selectLoop scenarioA (SelectBackend.mongo.body mockEnv) 3 (0 + 1) s' (0 + 100) := by
  have h := select_iteration_abort_iff mockEnv scenarioA .mongo 3 0 St.init 0 (by decide)
  refine ⟨⟨by decide, rfl⟩, ?_, ?_⟩
  · rw [h.1]
    rintro ⟨e, he, hne⟩
    cases he
    exact hne rfl
  · obtain ⟨s', _, h2⟩ := h.2.2 (Or.inr rfl)
    exact ⟨s', h2⟩

/-- C4 (as stated, refuted): with `totalCount = 0` the insert workload still
makes one adapter insert call, because the loop bound `i <= totalCount` is
inclusive. -/
theorem insert_zero_total_one_call :
    insertCallsOf (pgInsert mockEnv zeroConfig St.init).2.log = [(0, true)] ∧
      (insertCallsOf (pgInsert mockEnv zeroConfig St.init).2.log).length ≠ 0 := by
  constructor
  · rfl
  · decide

/-- Every loop body of an insert workload makes exactly one adapter call and
either goes on or reports the failure of that call. -/
theorem body_call (env : Env) (w : InsertBackend) (i : Nat) (s : St) :
    ∃ s' ok, s'.log = s.log ++ [.insertCall i ok] ∧
      ((∃ id, w.body env i s = (s', .next id)) ∨ (∃ e, w.body env i s = (s', .failed e))) := by
  cases w
  · obtain ⟨s1, h1, hl⟩ := genBook_some env i s
    simp only [InsertBackend.body, pgInsertBody, h1]
    rcases env.pgInsert i (s1.mem.books env.bookAddr) (tagsSeen s1 env.bookAddr) with e | id
    · exact ⟨_, false, by simp [St.emit, hl], Or.inr ⟨e, rfl⟩⟩
    · exact ⟨_, true, by simp [St.emit, hl], Or.inl ⟨_, rfl⟩⟩
  · obtain ⟨s1, h1, hl⟩ := genBook_some env i s
    simp only [InsertBackend.body, pgxInsertBody, h1]
    rcases env.pgxInsert i (s1.mem.books env.bookAddr) (tagsSeen s1 env.bookAddr) with e | id
    · exact ⟨_, false, by simp [St.emit, hl], Or.inr ⟨e, rfl⟩⟩
    · exact ⟨_, true, by simp [St.emit, hl], Or.inl ⟨_, rfl⟩⟩
  · obtain ⟨s1, h1, hl⟩ := genBook_some env i s
    simp only [InsertBackend.body, pqInsertBody, h1]
    rcases env.pqInsert i (s1.mem.books env.bookAddr) (tagsSeen s1 env.bookAddr) with e | id
    · exact ⟨_, false, by simp [St.emit, hl], Or.inr ⟨e, rfl⟩⟩
    · exact ⟨_, true, by simp [St.emit, hl], Or.inl ⟨_, rfl⟩⟩
  · obtain ⟨s1, h1, hl⟩ := genBook_some env i
      { s with mem := s.mem.setBook env.bookAddr { s.mem.books env.bookAddr with ID := 0 } }
    simp only [InsertBackend.body, goPGInsertBody, h1]
    rcases env.goPGInsert i (s1.mem.books env.bookAddr) (tagsSeen s1 env.bookAddr) with e | id
    · exact ⟨_, false, by simp [St.emit, hl], Or.inr ⟨e, rfl⟩⟩
    · exact ⟨_, true, by simp [St.emit, hl], Or.inl ⟨_, rfl⟩⟩
  · obtain ⟨s1, h1, hl⟩ := genBook_some env i s
    simp only [InsertBackend.body, mongoInsertBody, h1]
    rcases env.mongoInsert i (s1.mem.books env.bookAddr) (tagsSeen s1 env.bookAddr) with _ | e
    · exact ⟨_, true, by simp [St.emit, hl], Or.inl ⟨_, rfl⟩⟩
    · exact ⟨_, false, by simp [St.emit, hl], Or.inr ⟨e, rfl⟩⟩

/-- With `totalInsertCount = 0` an insert workload whose setup succeeds runs
its loop body once: one adapter call, then the summary line if the call
succeeded and the fatal abort if it failed. -/
theorem insert_zero_log (env : Env) (cfg : Config) (w : InsertBackend) (s : St)
    (hs : env.setupOk w) (hT : cfg.totalInsertCount = 0) :
    ∃ ok new, (w.run env cfg s).2.log = s.log ++ new ∧
      insertCallsOf new = [(0, ok)] ∧ progressOf new = [] := by
  obtain ⟨s1, ok, hl, hbody⟩ := body_call env w 0 (declBook env s)
  have hfuel : cfg.totalInsertCount + 2 = 1 + 1 := by omega
  have h00 : (0 : Nat) ≤ cfg.totalInsertCount := Nat.zero_le _
  have h10 : ¬ (0 + 1 ≤ cfg.totalInsertCount) := by omega
  rcases hbody with ⟨id, hb⟩ | ⟨e, hb⟩
  · have hrun : insertRun cfg (w.body env) (declBook env s)
        = (.returned, s1.emit .insertFinished) := by
      simp only [insertRun, hfuel, insertLoop, h00, if_true, hb, Nat.lt_irrefl, if_false, h10]
    obtain ⟨s2, h2, hl2⟩ := run_of_insertRun_returned env cfg w s _ hs hrun
    refine ⟨ok, .insertCall 0 ok :: .insertFinished :: w.closing, ?_, ?_, ?_⟩
    · rw [h2, hl2]
      simp [St.emit, hl, declBook]
    · cases w <;> rfl
    · cases w <;> rfl
  · have hrun : insertRun cfg (w.body env) (declBook env s)
        = (.fatal, s1.emit (.fatal (some e))) := by
      simp only [insertRun, hfuel, insertLoop, h00, if_true, hb]
    refine ⟨ok, [.insertCall 0 ok, .fatal (some e)], ?_, rfl, rfl⟩
    rw [run_of_insertRun_fatal env cfg w s _ hs hrun]
    simp [St.emit, hl, declBook]

/-- With `selectCount = 0` a select workload makes no select call, whether or
not its setup succeeds. -/
theorem select_zero_calls (env : Env) (cfg : Config) (w : SelectBackend) (s : St)
    (hz : cfg.selectCount = 0) :
    ∃ new, (w.run env cfg s).2.log = s.log ++ new ∧ selectCallsOf new = [] := by
  by_cases hss : env.selectSetupOk w
  · obtain ⟨s', hrun, hl⟩ := select_zero_log env cfg w s hz hss
    exact ⟨[.panic "integer divide by zero"], by rw [hrun]; exact hl, rfl⟩
  · cases w
    · have hne : env.pgOpenSel ≠ none := hss
      rcases hp : env.pgOpenSel with _ | e
      · exact absurd hp hne
      · exact ⟨[.panic "nil pointer dereference"],
          by simp [SelectBackend.run, pgSelect, hp, St.emit], rfl⟩
    · have hne : env.mongoDialSel ≠ none := hss
      rcases hp : env.mongoDialSel with _ | e
      · exact absurd hp hne
      · exact ⟨[.fatal (some e)],
          by simp [SelectBackend.run, mongoSelect, hp, St.emit], rfl⟩

/-- C4 (amended): with `totalCount = 0` an insert workload whose setup
succeeds makes exactly one adapter insert call, that of iteration 0 (the loop
bound `i <= totalCount` is inclusive), and no progress line; with
`selectCount = 0` a select workload makes zero adapter select calls. -/
theorem boundary_counts (env : Env) (cfg : Config) (wi : InsertBackend) (ws : SelectBackend)
    (s : St) (hsi : env.setupOk wi) :
    (cfg.totalInsertCount = 0 →
      ∃ ok new, (wi.run env cfg s).2.log = s.log ++ new ∧
        insertCallsOf new = [(0, ok)] ∧ (insertCallsOf new).length = 1 ∧
        progressOf new = []) ∧
    (cfg.selectCount = 0 →
      ∃ new, (ws.run env cfg s).2.log = s.log ++ new ∧
        selectCallsOf new = [] ∧ (selectCallsOf new).length = 0) := by
  constructor
  · intro hT
    obtain ⟨ok, new, h1, h2, h3⟩ := insert_zero_log env cfg wi s hsi hT
    exact ⟨ok, new, h1, h2, by rw [h2]; rfl, h3⟩
  · intro hS
    obtain ⟨new, h1, h2⟩ := select_zero_calls env cfg ws s hS
    exact ⟨new, h1, h2, by rw [h2]; rfl⟩

theorem boundary_counts_witness :
    (mockEnv.setupOk .mongo ∧ zeroConfig.totalInsertCount = 0 ∧
      zeroConfig.selectCount = 0) ∧
    (∃ ok new, (InsertBackend.mongo.run mockEnv zeroConfig St.init).2.log = new ∧
      insertCallsOf new = [(0, ok)] ∧ (insertCallsOf new).length = 1 ∧
      progressOf new = []) ∧
    (∃ new, (SelectBackend.mongo.run mockEnv zeroConfig St.init).2.log = new ∧
      selectCallsOf new = [] ∧ (selectCallsOf new).length = 0) := by
  have h := boundary_counts mockEnv zeroConfig .mongo .mongo St.init rfl
  refine ⟨⟨rfl, rfl, rfl⟩, ?_, ?_⟩
  · obtain ⟨ok, new, h1, h2, h3, h4⟩ := h.1 rfl
    exact ⟨ok, new, by simpa [St.init] using h1, h2, h3, h4⟩
  · obtain ⟨new, h1, h2, h3⟩ := h.2 rfl
    exact ⟨new, by simpa [St.init] using h1, h2, h3⟩

/-- C6 (as stated, refuted): for the recognized select name "sqlx" the
workload does not complete and emits no summary line: `sqlxSelect` panics with
"todo" before any adapter call. -/
theorem sqlx_select_panics :
    (selectSwitch mockEnv scenarioA "sqlx" St.init).1 = .panicked ∧
      (selectSwitch mockEnv scenarioA "sqlx" St.init).2.log = [.panic "todo"] ∧
      summariesOf (selectSwitch mockEnv scenarioA "sqlx" St.init).2.log = [] := by
  refine ⟨?_, ?_, ?_⟩ <;> decide

theorem selectCallsOf_map (l : List Nat) :
    selectCallsOf (l.map Event.selectCall) = l := by
  induction l with
  | nil => rfl
  | cons a l ih => simp only [List.map_cons, selectCallsOf, List.filterMap_cons] at ih ⊢; rw [ih]

theorem summariesOf_map (l : List Nat) :
    summariesOf (l.map Event.selectCall) = [] := by
  induction l with
  | nil => rfl
  | cons a l ih => simp only [List.map_cons, summariesOf, List.filterMap_cons] at ih ⊢; rw [ih]

theorem progressOf_map (l : List Nat) :
    progressOf (l.map Event.selectCall) = [] := by
  induction l with
  | nil => rfl
  | cons a l ih => simp only [List.map_cons, progressOf, List.filterMap_cons] at ih ⊢; rw [ih]

theorem selectSwitch_name (env : Env) (cfg : Config) (w : SelectBackend) (s : St) :
    selectSwitch env cfg w.name s = w.run env cfg s := by
  cases w
  · simp [selectSwitch, SelectBackend.name, SelectBackend.run]
  · simp [selectSwitch, SelectBackend.name, SelectBackend.run]

/-- C6 (amended): for the select names "pg" and "mongo" and every adapter
whose setup succeeds and whose calls do not fail fatally, the select workload
dispatched for that name returns having emitted its select calls and then
exactly one summary line, with no progress line; for the name "sqlx" the
workload is a stub that panics with "todo" and emits nothing else. The loop
bound is any `selectCount >= 1`; the program's is 5000. -/
theorem select_switch_summary (env : Env) (cfg : Config) (w : SelectBackend) (s : St)
    (hpos : 0 < cfg.selectCount)
    (hs : env.selectSetupOk w) (hok : ∀ i, i < cfg.selectCount → env.cursorEndsOk w i) :
    (∃ s' new, selectSwitch env cfg w.name s = (.returned, s') ∧
      s'.log = s.log ++ new ∧
      summariesOf new = [rowsYielded w env cfg.selectCount] ∧
      new.getLast? = some (.selectSummary (rowsYielded w env cfg.selectCount)) ∧
      progressOf new = [] ∧
      selectCallsOf new = List.range cfg.selectCount) ∧
    selectSwitch env cfg "sqlx" s = (.panicked, s.emit (.panic "todo")) := by
  constructor
  · obtain ⟨s', hrun, hl⟩ := select_ok_log env cfg w s hpos hs hok
    refine ⟨s', _, by rw [selectSwitch_name]; exact hrun, hl, ?_, ?_, ?_, ?_⟩
    · have : summariesOf [Event.selectSummary (rowsYielded w env cfg.selectCount)]
          = [rowsYielded w env cfg.selectCount] := rfl
      simp only [summariesOf, List.filterMap_append] at this ⊢
      rw [this]
      have h0 := summariesOf_map (List.range cfg.selectCount)
      simp only [summariesOf] at h0
      rw [h0]; rfl
    · simp
    · rw [progressOf_append, progressOf_map]; rfl
    · have h0 := selectCallsOf_map (List.range cfg.selectCount)
      simp only [selectCallsOf, List.filterMap_append] at h0 ⊢
      rw [h0]; simp
  · simp [selectSwitch, sqlxSelect]

/-- C6 at concrete inputs: scenario B (`selectCount = 3`) for "mongo", and the
program's own constants (`selectCount = 5000`) for "pg", where the mock's 100
rows per call give `found = 500000`. -/
theorem select_switch_summary_witness :
    (0 < scenarioA.selectCount ∧ mockEnv.selectSetupOk .mongo ∧
      ∀ i, i < scenarioA.selectCount → mockEnv.cursorEndsOk .mongo i) ∧
    (∃ s' new, selectSwitch mockEnv scenarioA "mongo" St.init = (.returned, s') ∧
      s'.log = new ∧ summariesOf new = [300] ∧ progressOf new = [] ∧
      selectCallsOf new = [0, 1, 2]) ∧
    (∃ s' new, selectSwitch mockEnv defaultConfig "pg" St.init = (.returned, s') ∧
      s'.log = new ∧ summariesOf new = [500000] ∧ progressOf new = [] ∧
      new.getLast? = some (.selectSummary 500000)) ∧
    selectSwitch mockEnv scenarioA "sqlx" St.init
      = (.panicked, St.init.emit (.panic "todo")) := by
  have hok : ∀ i, i < scenarioA.selectCount → mockEnv.cursorEndsOk .mongo i :=
    fun _ _ => Or.inr rfl
  have h := select_switch_summary mockEnv scenarioA .mongo St.init (by decide) rfl hok
  have hd := select_switch_summary mockEnv defaultConfig .pg St.init (by decide) rfl
    (fun _ _ => Or.inr rfl)
  have hrows : rowsYielded .pg mockEnv defaultConfig.selectCount = 500000 :=
    rowsYielded_eq mockEnv .pg 100 defaultConfig.selectCount
      (fun _ _ => List.length_replicate 100 Book.zero)
  refine ⟨⟨by decide, rfl, hok⟩, ?_, ?_, h.2⟩
  · obtain ⟨s', new, h1, h2, h3, _, h5, h6⟩ := h.1
    exact ⟨s', new, h1, by simpa [St.init] using h2, h3, h5, h6⟩
  · obtain ⟨s', new, h1, h2, h3, h4, h5, _⟩ := hd.1
    rw [hrows] at h3 h4
    exact ⟨s', new, h1, by simpa [St.init] using h2, h3, h5, h4⟩

/-! ## Process entry: proofs -/

/-- C8 (code evaluated at the failing input): a CPU profile is requested, the
`pg` insert workload runs and its 5th insert call fails. `main` starts
sampling first, the workload ends the process through `log.Fatal`, and the
deferred `pprof.StopCPUProfile()` never runs: the process exits with
sampling still active. -/
theorem fatal_abort_skips_cpu_stop :
    (main failingEnv scenarioA cpuFlags).1 = .fatal ∧
      (main failingEnv scenarioA cpuFlags).2.log =
        [.cpuStart, .insertCall 0 true, .insertCall 1 true, .insertCall 2 true,
          .insertCall 3 true, .insertCall 4 false, .fatal (some (.other 1))] ∧
      Event.cpuStop ∉ (main failingEnv scenarioA cpuFlags).2.log ∧
      cpuActive (main failingEnv scenarioA cpuFlags).2.log = true := by
  have hl : (main failingEnv scenarioA cpuFlags).2.log =
      [.cpuStart, .insertCall 0 true, .insertCall 1 true, .insertCall 2 true,
        .insertCall 3 true, .insertCall 4 false, .fatal (some (.other 1))] := by rfl
  refine ⟨by rfl, hl, ?_, ?_⟩
  · rw [hl]; decide
  · rw [hl]; rfl

/-! ### Which events a workload can add to the log -/

theorem Extends.refl (P : Event → Bool) (s : St) : Extends P s s :=
  ⟨[], by simp, by simp⟩

theorem Extends.trans {P : Event → Bool} {s1 s2 s3 : St}
    (h1 : Extends P s1 s2) (h2 : Extends P s2 s3) : Extends P s1 s3 := by
  obtain ⟨n1, e1, p1⟩ := h1
  obtain ⟨n2, e2, p2⟩ := h2
  refine ⟨n1 ++ n2, by rw [e2, e1, List.append_assoc], ?_⟩
  intro e he
  rcases List.mem_append.mp he with h | h
  · exact p1 e h
  · exact p2 e h

theorem Extends.emit (P : Event → Bool) (s : St) (e : Event) (h : P e = true) :
    Extends P s (s.emit e) :=
  ⟨[e], rfl, by simpa using h⟩

theorem Extends.mono {P Q : Event → Bool} {s s' : St} (hPQ : ∀ e, P e = true → Q e = true)
    (h : Extends P s s') : Extends Q s s' := by
  obtain ⟨n, e, p⟩ := h
  exact ⟨n, e, fun x hx => hPQ x (p x hx)⟩

theorem Extends.of_log_eq (P : Event → Bool) (s s' : St) (h : s'.log = s.log) :
    Extends P s s' :=
  ⟨[], by simp [h], by simp⟩

/-- Every loop body of an insert workload adds only its adapter call. -/
theorem body_extends (env : Env) (w : InsertBackend) (i : Nat) (s : St) :
    Extends fromInsertLoop s (w.body env i s).1 := by
  cases w
  · obtain ⟨s1, h1, hl⟩ := genBook_some env i s
    simp only [InsertBackend.body, pgInsertBody, h1]
    cases env.pgInsert i (s1.mem.books env.bookAddr) (tagsSeen s1 env.bookAddr) <;>
      exact (Extends.of_log_eq _ s _ hl).trans (Extends.emit _ _ _ rfl)
  · obtain ⟨s1, h1, hl⟩ := genBook_some env i s
    simp only [InsertBackend.body, pgxInsertBody, h1]
    cases env.pgxInsert i (s1.mem.books env.bookAddr) (tagsSeen s1 env.bookAddr) <;>
      exact (Extends.of_log_eq _ s _ hl).trans (Extends.emit _ _ _ rfl)
  · obtain ⟨s1, h1, hl⟩ := genBook_some env i s
    simp only [InsertBackend.body, pqInsertBody, h1]
    cases env.pqInsert i (s1.mem.books env.bookAddr) (tagsSeen s1 env.bookAddr) <;>
      exact (Extends.of_log_eq _ s _ hl).trans (Extends.emit _ _ _ rfl)
  · obtain ⟨s1, h1, hl⟩ := genBook_some env i
      { s with mem := s.mem.setBook env.bookAddr { s.mem.books env.bookAddr with ID := 0 } }
    simp only [InsertBackend.body, goPGInsertBody, h1]
    cases env.goPGInsert i (s1.mem.books env.bookAddr) (tagsSeen s1 env.bookAddr) <;>
      exact (Extends.of_log_eq _ s _ hl).trans (Extends.emit _ _ _ rfl)
  · obtain ⟨s1, h1, hl⟩ := genBook_some env i s
    simp only [InsertBackend.body, mongoInsertBody, h1]
    cases env.mongoInsert i (s1.mem.books env.bookAddr) (tagsSeen s1 env.bookAddr) <;>
      exact (Extends.of_log_eq _ s _ hl).trans (Extends.emit _ _ _ rfl)

/-- An insert loop adds only calls, progress lines and aborts. -/
theorem insertLoop_extends (cfg : Config) (body : Nat → St → St × BodyResult)
    (hbody : ∀ i s, Extends fromInsertLoop s (body i s).1) :
    ∀ (fuel i : Nat) (s : St), Extends fromInsertLoop s (insertLoop cfg body fuel i s).2 := by
  intro fuel
  induction fuel with
  | zero => intro i s; exact Extends.refl _ _
  | succ fuel ih =>
    intro i s
    simp only [insertLoop]
    split
    · have hb := hbody i s
      rcases hr : body i s with ⟨s1, r⟩
      rw [hr] at hb
      cases r with
      | stuck => exact hb
      | failed e => exact hb.trans (Extends.emit _ _ _ rfl)
      | next id =>
        simp only
        split
        · split
          · exact hb.trans (Extends.emit _ _ _ rfl)
          · split
            · exact hb.trans ((Extends.emit _ _ _ rfl).trans (ih _ _))
            · exact hb.trans (ih _ _)
        · exact hb.trans (ih _ _)
    · exact Extends.refl _ _

theorem St.eta (s : St) : (⟨s.mem, s.log⟩ : St) = s := rfl

/-- A select loop's exit, final `found` and added events do not depend on the
state it starts from; the events it adds are select calls and aborts. -/
theorem selectLoop_param (env : Env) (cfg : Config) (w : SelectBackend) :
    ∀ (fuel i found : Nat), ∃ (ex : Exit) (new : List Event) (f : Nat),
      (∀ e, e ∈ new → fromSelect e = true) ∧
      (∀ e, e ∈ new → ∀ n, e ≠ .selectSummary n) ∧
      ∀ s : St, ∃ m, selectLoop cfg (w.body env) fuel i s found = (ex, ⟨m, s.log ++ new⟩, f) := by
  intro fuel
  induction fuel with
  | zero =>
    intro i found
    exact ⟨.stuck, [], found, by simp, by simp, fun s => ⟨s.mem, by simp [selectLoop]⟩⟩
  | succ fuel ih =>
    intro i found
    by_cases hi : i < cfg.selectCount
    · by_cases hok : env.cursorEndsOk w i
      · obtain ⟨ex, new, f, hP, hS, hrun⟩ := ih (i + 1) (found + (w.cursor env i).rows.length)
        refine ⟨ex, .selectCall i :: new, f, ?_, ?_, ?_⟩
        · intro e he
          rcases List.mem_cons.mp he with h | h
          · subst h; rfl
          · exact hP e h
        · intro e he n
          rcases List.mem_cons.mp he with h | h
          · subst h; simp
          · exact hS e h n
        · intro s
          obtain ⟨s1, h1, hl1⟩ := selectBody_next env w i s found hok
          obtain ⟨m, hm⟩ := hrun s1
          refine ⟨m, ?_⟩
          simp only [selectLoop, hi, if_true, h1, hm, hl1, List.append_assoc,
            List.singleton_append]
      · refine ⟨.fatal, [.selectCall i, .fatal (w.fatalArg env i)], found, ?_, ?_, ?_⟩
        · intro e he
          simp only [List.mem_cons, List.mem_singleton, List.not_mem_nil, or_false] at he
          rcases he with h | h <;> subst h <;> rfl
        · intro e he n
          simp only [List.mem_cons, List.mem_singleton, List.not_mem_nil, or_false] at he
          rcases he with h | h <;> subst h <;> simp
        · intro s
          obtain ⟨s1, h1, hl1⟩ := selectBody_fatal env w i s found hok
          refine ⟨s1.mem, ?_⟩
          simp only [selectLoop, hi, if_true, h1, ← hl1]
    · exact ⟨.returned, [], found, by simp, by simp,
        fun s => ⟨s.mem, by simp [selectLoop, hi]⟩⟩

theorem selectRun_param (env : Env) (cfg : Config) (w : SelectBackend) :
    ∃ (ex : Exit) (new : List Event), (∀ e, e ∈ new → fromSelect e = true) ∧
      ∀ s : St, ∃ m, selectRun cfg (w.body env) s = (ex, ⟨m, s.log ++ new⟩) := by
  obtain ⟨ex, new, f, hP, _, hrun⟩ := selectLoop_param env cfg w (cfg.selectCount + 1) 0 0
  cases ex with
  | returned =>
    by_cases hz : cfg.selectCount = 0
    · refine ⟨.panicked, new ++ [.panic "integer divide by zero"], ?_, ?_⟩
      · intro e he
        rcases List.mem_append.mp he with h | h
        · exact hP e h
        · simp only [List.mem_singleton] at h; subst h; rfl
      · intro s
        obtain ⟨m, hm⟩ := hrun s
        refine ⟨m, ?_⟩
        simp only [selectRun, hm]
        rw [if_pos hz]
        simp only [St.emit, List.append_assoc]
    · refine ⟨.returned, new ++ [.selectSummary f], ?_, ?_⟩
      · intro e he
        rcases List.mem_append.mp he with h | h
        · exact hP e h
        · simp only [List.mem_singleton] at h; subst h; rfl
      · intro s
        obtain ⟨m, hm⟩ := hrun s
        refine ⟨m, ?_⟩
        simp only [selectRun, hm]
        rw [if_neg hz]
        simp only [St.emit, List.append_assoc]
  | fatal =>
    refine ⟨.fatal, new, hP, fun s => ?_⟩
    obtain ⟨m, hm⟩ := hrun s
    exact ⟨m, by simp only [selectRun, hm]⟩
  | panicked =>
    refine ⟨.panicked, new, hP, fun s => ?_⟩
    obtain ⟨m, hm⟩ := hrun s
    exact ⟨m, by simp only [selectRun, hm]⟩
  | stuck =>
    refine ⟨.stuck, new, hP, fun s => ?_⟩
    obtain ⟨m, hm⟩ := hrun s
    exact ⟨m, by simp only [selectRun, hm]⟩

/-- The select switch of `main`: its exit and the events it adds depend only
on the name (and the environment), not on the state it starts from; for a name
without a case it returns at once and adds nothing. -/
theorem selectSwitch_param (env : Env) (cfg : Config) (name : String) :
    ∃ (ex : Exit) (new : List Event), (∀ e, e ∈ new → fromSelect e = true) ∧
      (name ∉ selectNames → ex = .returned ∧ new = []) ∧
      ∀ s : St, ∃ m, selectSwitch env cfg name s = (ex, ⟨m, s.log ++ new⟩) := by
  by_cases h1 : name = "pg"
  · subst h1
    rcases hs : env.pgOpenSel with _ | e
    · obtain ⟨ex, new, hP, hrun⟩ := selectRun_param env cfg .pg
      refine ⟨ex, new, hP, fun h => absurd (by decide) h, fun s => ?_⟩
      obtain ⟨m, hm⟩ := hrun (declBook env s)
      simp only [SelectBackend.body] at hm
      exact ⟨m, by simp only [selectSwitch, if_true, pgSelect, hs, hm]; rfl⟩
    · refine ⟨.panicked, [.panic "nil pointer dereference"], by decide,
        fun h => absurd (by decide) h, fun s => ⟨s.mem, ?_⟩⟩
      simp only [selectSwitch, if_true, pgSelect, hs, St.emit]
  · by_cases h2 : name = "mongo"
    · subst h2
      rcases hs : env.mongoDialSel with _ | e
      · obtain ⟨ex, new, hP, hrun⟩ := selectRun_param env cfg .mongo
        refine ⟨ex, new, hP, fun h => absurd (by decide) h, fun s => ?_⟩
        obtain ⟨m, hm⟩ := hrun (declBook env s)
        simp only [SelectBackend.body] at hm
        exact ⟨m, by simp only [selectSwitch, h1, if_false, if_true, mongoSelect, hs, hm]; rfl⟩
      · refine ⟨.fatal, [.fatal (some e)], ?_, fun h => absurd (by decide) h,
          fun s => ⟨s.mem, ?_⟩⟩
        · intro x hx
          simp only [List.mem_singleton] at hx; subst hx; rfl
        · simp only [selectSwitch, h1, if_false, if_true, mongoSelect, hs, St.emit]
    · by_cases h3 : name = "sqlx"
      · subst h3
        refine ⟨.panicked, [.panic "todo"], by decide, fun h => absurd (by decide) h,
          fun s => ⟨s.mem, ?_⟩⟩
        simp only [selectSwitch, h1, h2, if_false, if_true, sqlxSelect, St.emit]
      · refine ⟨.returned, [], by simp, fun _ => ⟨rfl, rfl⟩, fun s => ⟨s.mem, ?_⟩⟩
        simp only [selectSwitch, h1, h2, h3, if_false, List.append_nil]

theorem fromInsert_of_loop (e : Event) (h : fromInsertLoop e = true) : fromInsert e = true := by
  cases e <;> simp_all [fromInsertLoop, fromInsert, isInsertEvent, isAbortEvent]

theorem insertShape_abort (s : St) (ex : Exit) (e : Event) (hex : ex ≠ .returned)
    (he : isAbortEvent e = true) : InsertShape s (ex, s.emit e) := by
  refine ⟨[e], rfl, ?_, fun h => absurd h hex, fun _ => ?_⟩
  · intro x hx
    simp only [List.mem_singleton] at hx
    subst hx
    simp [fromInsert, he]
  · intro hx
    simp only [List.mem_singleton] at hx
    subst hx
    simp [isAbortEvent] at he

theorem insertRun_shape (cfg : Config) (body : Nat → St → St × BodyResult)
    (hbody : ∀ i s, Extends fromInsertLoop s (body i s).1) (s0 s : St) (hs : s.log = s0.log) :
    InsertShape s0 (insertRun cfg body s) := by
  obtain ⟨n, hl, hP⟩ := insertLoop_extends cfg body hbody (cfg.totalInsertCount + 2) 0 s
  have hnot : Event.insertFinished ∉ n := fun h => by
    have := hP _ h
    simp [fromInsertLoop, isAbortEvent] at this
  rcases hr : insertLoop cfg body (cfg.totalInsertCount + 2) 0 s with ⟨ex, s1⟩
  rw [hr] at hl
  simp only at hl
  cases ex with
  | returned =>
    refine ⟨n ++ [.insertFinished], ?_, ?_, ?_, ?_⟩
    · simp only [insertRun, hr, St.emit, hl, hs, List.append_assoc]
    · intro e he
      rcases List.mem_append.mp he with h | h
      · exact fromInsert_of_loop e (hP e h)
      · simp only [List.mem_singleton] at h; subst h; rfl
    · intro _; simp
    · intro h
      simp only [insertRun, hr] at h
      exact absurd rfl h
  | fatal =>
    refine ⟨n, by simp only [insertRun, hr, hl, hs],
      fun e he => fromInsert_of_loop e (hP e he), ?_, fun _ => hnot⟩
    intro h
    simp only [insertRun, hr] at h
    cases h
  | panicked =>
    refine ⟨n, by simp only [insertRun, hr, hl, hs],
      fun e he => fromInsert_of_loop e (hP e he), ?_, fun _ => hnot⟩
    intro h
    simp only [insertRun, hr] at h
    cases h
  | stuck =>
    refine ⟨n, by simp only [insertRun, hr, hl, hs],
      fun e he => fromInsert_of_loop e (hP e he), ?_, fun _ => hnot⟩
    intro h
    simp only [insertRun, hr] at h
    cases h

theorem insertShape_run (env : Env) (cfg : Config) (w : InsertBackend) (s : St) :
    InsertShape s (w.run env cfg s) := by
  have hrun := insertRun_shape cfg (w.body env) (body_extends env w) s (declBook env s) rfl
  cases w <;> simp only [InsertBackend.body] at hrun
  · simp only [InsertBackend.run, pgInsert]
    rcases env.pgOpen with _ | e
    · exact hrun
    · exact insertShape_abort s _ _ (by decide) rfl
  · simp only [InsertBackend.run, pgxInsert]
    rcases env.pgxConnect with _ | e
    · rcases env.pgxPrepare with _ | e
      · exact hrun
      · exact insertShape_abort s _ _ (by decide) rfl
    · exact insertShape_abort s _ _ (by decide) rfl
  · simp only [InsertBackend.run, pqInsert]
    rcases env.pqOpen with _ | e
    · rcases env.pqPrepare with _ | e
      · exact hrun
      · exact insertShape_abort s _ _ (by decide) rfl
    · exact insertShape_abort s _ _ (by decide) rfl
  · simp only [InsertBackend.run, goPGInsert]
    obtain ⟨n, hl, hP, hret, hnot⟩ := hrun
    rcases hr : insertRun cfg (goPGInsertBody env) (declBook env s) with ⟨ex, s1⟩
    rw [hr] at hl hret hnot
    simp only at hl hret hnot
    cases ex with
    | returned =>
      refine ⟨n ++ [.dbClose], by simp [St.emit, hl], ?_, ?_, fun h => absurd rfl h⟩
      · intro e he
        rcases List.mem_append.mp he with h | h
        · exact hP e h
        · simp only [List.mem_singleton] at h; subst h; rfl
      · intro _
        exact List.mem_append_left _ (hret rfl)
    | panicked =>
      refine ⟨n ++ [.dbClose], by simp [St.emit, hl], ?_, (fun h => by cases h), ?_⟩
      · intro e he
        rcases List.mem_append.mp he with h | h
        · exact hP e h
        · simp only [List.mem_singleton] at h; subst h; rfl
      · intro _ h
        rcases List.mem_append.mp h with h | h
        · exact hnot (by decide) h
        · simp at h
    | fatal => exact ⟨n, hl, hP, (fun h => by cases h), fun _ => hnot (by decide)⟩
    | stuck => exact ⟨n, hl, hP, (fun h => by cases h), fun _ => hnot (by decide)⟩
  · simp only [InsertBackend.run, mongoInsert]
    rcases env.mongoDial with _ | e
    · exact hrun
    · exact insertShape_abort s _ _ (by decide) rfl

/-- The insert switch of `main`: for a name without a case it returns at once
and leaves the state unchanged; for a name with a case it runs the workload of
that name. -/
theorem insertSwitch_cases (env : Env) (cfg : Config) (name : String) :
    (name ∉ insertNames ∧ ∀ s, insertSwitch env cfg name s = (.returned, s)) ∨
    (name ∈ insertNames ∧ ∃ w : InsertBackend, w.name = name ∧
      ∀ s, insertSwitch env cfg name s = w.run env cfg s) := by
  by_cases h1 : name = "pg"
  · exact Or.inr ⟨by simp [h1, insertNames], .pg, h1.symm, fun s => by
      simp [insertSwitch, h1, InsertBackend.run]⟩
  by_cases h2 : name = "pgx"
  · exact Or.inr ⟨by simp [h2, insertNames], .pgx, h2.symm, fun s => by
      simp [insertSwitch, h2, InsertBackend.run]⟩
  by_cases h3 : name = "pq"
  · exact Or.inr ⟨by simp [h3, insertNames], .pq, h3.symm, fun s => by
      simp [insertSwitch, h3, InsertBackend.run]⟩
  by_cases h4 : name = "go-pg"
  · exact Or.inr ⟨by simp [h4, insertNames], .goPG, h4.symm, fun s => by
      simp [insertSwitch, h4, InsertBackend.run]⟩
  by_cases h5 : name = "mongo"
  · exact Or.inr ⟨by simp [h5, insertNames], .mongo, h5.symm, fun s => by
      simp [insertSwitch, h5, InsertBackend.run]⟩
  exact Or.inl ⟨by simp [insertNames, h1, h2, h3, h4, h5], fun s => by
    simp [insertSwitch, h1, h2, h3, h4, h5]⟩

/-! ### The structure of a run of `main` -/

theorem main_eq (env : Env) (cfg : Config) (flags : Flags)
    (hcpu : flags.cpuprofile = "" ∨ env.cpuCreate = none) :
    main env cfg flags = finish flags (mainWork env cfg flags (startState flags)) := by
  by_cases hc : flags.cpuprofile = ""
  · by_cases hm : flags.memprofile = "" <;>
      simp [main, finish, startState, prologue, hc, hm, St.init, St.emit]
  · have hcr : env.cpuCreate = none := hcpu.resolve_left hc
    by_cases hm : flags.memprofile = "" <;>
      simp [main, finish, startState, prologue, hc, hm, hcr, St.init, St.emit]

/-- The report at the end of `main`: the memory line, then possibly the heap
profile or a fatal abort while writing it. -/
theorem mainReport_param (env : Env) (flags : Flags) :
    ∃ (ex : Exit) (tail : List Event),
      (∀ e, e ∈ tail → isInsertEvent e = false ∧ isSelectEvent e = false) ∧
      ∀ s : St, mainReport env flags s = (ex, ⟨s.mem, s.log ++ .memReport :: tail⟩) := by
  by_cases hm : flags.memprofile = ""
  · exact ⟨.returned, [], by simp, fun s => by simp [mainReport, hm, St.emit]⟩
  · rcases h1 : env.memCreate with _ | e
    · rcases h2 : env.writeHeap with _ | e
      · refine ⟨.returned, [.heapProfile], ?_, fun s => by
          simp [mainReport, hm, h1, h2, St.emit]⟩
        intro e he
        simp only [List.mem_singleton] at he
        subst he
        exact ⟨rfl, rfl⟩
      · refine ⟨.fatal, [.fatal (some e)], ?_, fun s => by
          simp [mainReport, hm, h1, h2, St.emit]⟩
        intro x hx
        simp only [List.mem_singleton] at hx
        subst hx
        exact ⟨rfl, rfl⟩
    · refine ⟨.fatal, [.fatal (some e)], ?_, fun s => by
        simp [mainReport, hm, h1, St.emit]⟩
      intro x hx
      simp only [List.mem_singleton] at hx
      subst hx
      exact ⟨rfl, rfl⟩

theorem insertShape_switch (env : Env) (cfg : Config) (name : String) (s : St)
    (hname : name ∈ insertNames) : InsertShape s (insertSwitch env cfg name s) := by
  rcases insertSwitch_cases env cfg name with ⟨hn, _⟩ | ⟨_, w, _, h⟩
  · exact absurd hname hn
  · rw [h s]
    exact insertShape_run env cfg w s

theorem insertSwitch_shape (env : Env) (cfg : Config) (name : String) (s : St) :
    ∃ ins, (insertSwitch env cfg name s).2.log = s.log ++ ins ∧
      (∀ e, e ∈ ins → fromInsert e = true) ∧
      (name ∉ insertNames → ins = [] ∧ (insertSwitch env cfg name s).1 = .returned) ∧
      (name ∈ insertNames → (insertSwitch env cfg name s).1 = .returned →
        Event.insertFinished ∈ ins) ∧
      ((insertSwitch env cfg name s).1 ≠ .returned → Event.insertFinished ∉ ins) := by
  by_cases hname : name ∈ insertNames
  · obtain ⟨ins, hl, hP, hret, hnot⟩ := insertShape_switch env cfg name s hname
    exact ⟨ins, hl, hP, fun h => absurd hname h, fun _ => hret, hnot⟩
  · rcases insertSwitch_cases env cfg name with ⟨_, h⟩ | ⟨hn, _⟩
    · refine ⟨[], by rw [h s]; simp, by simp, fun _ => ⟨rfl, by rw [h s]⟩,
        fun h' => absurd h' hname, fun _ => by simp⟩
    · exact absurd hn hname

theorem finish_log (flags : Flags) (r : Exit × St) :
    ∃ stop, (finish flags r).2.log = r.2.log ++ stop ∧ ∀ e, e ∈ stop → e = Event.cpuStop := by
  obtain ⟨ex, s⟩ := r
  by_cases hc : flags.cpuprofile = ""
  · exact ⟨[], by simp [finish, hc], by simp⟩
  · cases ex
    · exact ⟨[.cpuStop], by simp [finish, hc, withDeferredStop, St.emit], by simp⟩
    · exact ⟨[], by simp [finish, hc, withDeferredStop], by simp⟩
    · exact ⟨[.cpuStop], by simp [finish, hc, withDeferredStop, St.emit], by simp⟩
    · exact ⟨[], by simp [finish, hc, withDeferredStop], by simp⟩

/-- The log of the two switches and the report, run from `s0`: the events of
the insert switch, then (only if it returned) the events of the select switch
and (only if that returned too) the report. -/
theorem mainWork_decomp (env : Env) (cfg : Config) (flags : Flags) (s0 : St)
    (ex2 : Exit) (sel : List Event)
    (hsel : ∀ s : St, ∃ m, selectSwitch env cfg flags.selectDB s = (ex2, ⟨m, s.log ++ sel⟩))
    (ins : List Event)
    (hins : (insertSwitch env cfg flags.insertDB s0).2.log = s0.log ++ ins) :
    ∃ after, (mainWork env cfg flags s0).2.log = s0.log ++ ins ++ after ∧
      ((insertSwitch env cfg flags.insertDB s0).1 ≠ .returned → after = []) ∧
      ((insertSwitch env cfg flags.insertDB s0).1 = .returned →
        ∃ rep, after = sel ++ rep ∧
          (∀ e, e ∈ rep → isInsertEvent e = false ∧ isSelectEvent e = false) ∧
          (ex2 = .returned → ∃ tail, rep = .memReport :: tail)) := by
  rcases hr1 : insertSwitch env cfg flags.insertDB s0 with ⟨e1, s1⟩
  rw [hr1] at hins
  simp only at hins
  have hother : e1 ≠ .returned → ∃ after, (mainWork env cfg flags s0).2.log
      = s0.log ++ ins ++ after ∧ ((e1, s1).1 ≠ .returned → after = []) ∧
      ((e1, s1).1 = .returned →
        ∃ rep, after = sel ++ rep ∧
          (∀ e, e ∈ rep → isInsertEvent e = false ∧ isSelectEvent e = false) ∧
          (ex2 = .returned → ∃ tail, rep = .memReport :: tail)) := by
    intro hne
    refine ⟨[], ?_, fun _ => rfl, fun h => absurd h hne⟩
    cases e1 with
    | returned => exact absurd rfl hne
    | fatal => simp only [mainWork, hr1, hins, List.append_nil]
    | panicked => simp only [mainWork, hr1, hins, List.append_nil]
    | stuck => simp only [mainWork, hr1, hins, List.append_nil]
  by_cases he1 : e1 = .returned
  · subst he1
    obtain ⟨m, hm⟩ := hsel s1
    obtain ⟨ex3, tail, hT, hrep⟩ := mainReport_param env flags
    by_cases he2 : ex2 = .returned
    · subst he2
      refine ⟨sel ++ .memReport :: tail, ?_, fun h => absurd rfl h, fun _ =>
        ⟨.memReport :: tail, rfl, ?_, fun _ => ⟨tail, rfl⟩⟩⟩
      · simp only [mainWork, hr1, hm, hrep, hins, List.append_assoc]
      · intro e he
        rcases List.mem_cons.mp he with h | h
        · subst h; exact ⟨rfl, rfl⟩
        · exact hT e h
    · refine ⟨sel, ?_, fun h => absurd rfl h, fun _ =>
        ⟨[], by simp, by simp, fun h => absurd h he2⟩⟩
      cases ex2 with
      | returned => exact absurd rfl he2
      | fatal => simp only [mainWork, hr1, hm, hins]
      | panicked => simp only [mainWork, hr1, hm, hins]
      | stuck => simp only [mainWork, hr1, hm, hins]
  · exact hother he1

theorem prologue_clean (flags : Flags) (e : Event) (he : e ∈ prologue flags) :
    e = .gcOff ∨ e = .cpuStart := by
  unfold prologue at he
  rcases List.mem_append.mp he with h | h
  · by_cases hm : flags.memprofile = ""
    · simp [hm] at h
    · simp [hm] at h; exact Or.inl h
  · by_cases hc : flags.cpuprofile = ""
    · simp [hc] at h
    · simp [hc] at h; exact Or.inr h

theorem fromInsert_not_select (e : Event) (h : fromInsert e = true) :
    isSelectEvent e = false := by
  cases e <;> simp_all [fromInsert, isInsertEvent, isAbortEvent, isSelectEvent]

theorem fromSelect_not_insert (e : Event) (h : fromSelect e = true) :
    isInsertEvent e = false := by
  cases e <;> simp_all [fromSelect, isInsertEvent, isAbortEvent, isSelectEvent]

/-- The log of a run of `main` that reaches the dispatch, in four parts: the
prologue, the events `ins` of the insert switch, the events `after` of the
select switch and the report, and the deferred stop of the CPU profile.
Either the insert switch did not return and nothing follows it, or it
returned and `after` is the select switch's events `sel` followed by the
report (present when the select switch returned). -/
theorem main_run (env : Env) (cfg : Config) (flags : Flags)
    (hcpu : flags.cpuprofile = "" ∨ env.cpuCreate = none)
    (ex2 : Exit) (sel : List Event)
    (hsel : ∀ s : St, ∃ m, selectSwitch env cfg flags.selectDB s = (ex2, ⟨m, s.log ++ sel⟩)) :
    ∃ ins after stop,
      (main env cfg flags).2.log = prologue flags ++ ins ++ after ++ stop ∧
      (insertSwitch env cfg flags.insertDB (startState flags)).2.log = prologue flags ++ ins ∧
      (∀ e, e ∈ ins → fromInsert e = true) ∧
      (flags.insertDB ∉ insertNames → ins = []) ∧
      (∀ e, e ∈ stop → e = Event.cpuStop) ∧
      ((after = [] ∧ Event.insertFinished ∉ ins ∧ flags.insertDB ∈ insertNames) ∨
        ((flags.insertDB ∈ insertNames → Event.insertFinished ∈ ins) ∧
          ∃ rep, after = sel ++ rep ∧
            (∀ e, e ∈ rep → isInsertEvent e = false ∧ isSelectEvent e = false) ∧
            (ex2 = .returned → ∃ tail, rep = .memReport :: tail))) ∧
      ((insertSwitch env cfg flags.insertDB (startState flags)).1 = .returned →
        ex2 = .returned → ∃ tail, after = sel ++ .memReport :: tail) := by
  obtain ⟨ins, hl, hP, hun, hret, hnot⟩ :=
    insertSwitch_shape env cfg flags.insertDB (startState flags)
  obtain ⟨after, hw, hne, hre⟩ := mainWork_decomp env cfg flags (startState flags) ex2 sel hsel
    ins hl
  obtain ⟨stop, hf, hstop⟩ := finish_log flags (mainWork env cfg flags (startState flags))
  refine ⟨ins, after, stop, ?_, hl, hP, fun h => (hun h).1, hstop, ?_, ?_⟩
  · rw [main_eq env cfg flags hcpu, hf, hw]
    rfl
  rotate_left
  · intro hr he2
    obtain ⟨rep, h1, _, h3⟩ := hre hr
    obtain ⟨tail, ht⟩ := h3 he2
    exact ⟨tail, by rw [h1, ht]⟩
  · by_cases hr : (insertSwitch env cfg flags.insertDB (startState flags)).1 = .returned
    · exact Or.inr ⟨fun hn => hret hn hr, hre hr⟩
    · refine Or.inl ⟨hne hr, hnot hr, ?_⟩
      by_contra hn
      exact hr (hun hn).2

theorem filter_eq_nil_of_forall (p : Event → Bool) (l : List Event)
    (h : ∀ e, e ∈ l → p e = false) : l.filter p = [] := by
  apply List.filter_eq_nil_iff.mpr
  intro e he
  simp [h e he]

theorem after_no_insert (ins after sel : List Event) (name : String)
    (hselP : ∀ e, e ∈ sel → fromSelect e = true) (ex2 : Exit)
    (hcase : (after = [] ∧ Event.insertFinished ∉ ins ∧ name ∈ insertNames) ∨
      ((name ∈ insertNames → Event.insertFinished ∈ ins) ∧
        ∃ rep, after = sel ++ rep ∧
          (∀ e, e ∈ rep → isInsertEvent e = false ∧ isSelectEvent e = false) ∧
          (ex2 = .returned → ∃ tail, rep = .memReport :: tail))) :
    ∀ e, e ∈ after → isInsertEvent e = false := by
  intro e he
  rcases hcase with ⟨h, _, _⟩ | ⟨_, rep, h, hrep, _⟩
  · rw [h] at he; simp at he
  · rw [h] at he
    rcases List.mem_append.mp he with h1 | h1
    · exact fromSelect_not_insert e (hselP e h1)
    · exact (hrep e h1).1

/-- The insert-workload events of a run of `main` are those of its insert
switch. -/
theorem main_insert_events (pro ins after stop L : List Event)
    (hL : L = pro ++ ins ++ after ++ stop)
    (hpro : ∀ e, e ∈ pro → e = Event.gcOff ∨ e = Event.cpuStart)
    (hafter : ∀ e, e ∈ after → isInsertEvent e = false)
    (hstop : ∀ e, e ∈ stop → e = Event.cpuStop) :
    L.filter isInsertEvent = ins.filter isInsertEvent := by
  have h1 : pro.filter isInsertEvent = [] := filter_eq_nil_of_forall _ _ (fun e he => by
    rcases hpro e he with h | h <;> subst h <;> rfl)
  have h2 : after.filter isInsertEvent = [] := filter_eq_nil_of_forall _ _ hafter
  have h3 : stop.filter isInsertEvent = [] := filter_eq_nil_of_forall _ _ (fun e he => by
    rw [hstop e he]; rfl)
  rw [hL]
  simp only [List.filter_append, h1, h2, h3, List.nil_append, List.append_nil]

/-- The select-workload events of a run of `main` are those that follow its
insert switch. -/
theorem main_select_events (pro ins after stop L : List Event)
    (hL : L = pro ++ ins ++ after ++ stop)
    (hpro : ∀ e, e ∈ pro → e = Event.gcOff ∨ e = Event.cpuStart)
    (hins : ∀ e, e ∈ ins → fromInsert e = true)
    (hstop : ∀ e, e ∈ stop → e = Event.cpuStop) :
    L.filter isSelectEvent = after.filter isSelectEvent := by
  have h1 : pro.filter isSelectEvent = [] := filter_eq_nil_of_forall _ _ (fun e he => by
    rcases hpro e he with h | h <;> subst h <;> rfl)
  have h2 : ins.filter isSelectEvent = [] := filter_eq_nil_of_forall _ _
    (fun e he => fromInsert_not_select e (hins e he))
  have h3 : stop.filter isSelectEvent = [] := filter_eq_nil_of_forall _ _ (fun e he => by
    rw [hstop e he]; rfl)
  rw [hL]
  simp only [List.filter_append, h1, h2, h3, List.nil_append, List.append_nil]

theorem mem_filter_of (p : Event → Bool) (l : List Event) (e : Event) (he : e ∈ l)
    (hp : p e = true) : e ∈ l.filter p :=
  List.mem_filter.mpr ⟨he, hp⟩

/-- When the insert phase of a run of `main` completed (no insert workload
was named, or the insert summary line is in the log), the select-workload
events of the run are those of the select switch. -/
theorem main_select_events_complete (flags : Flags) (pro ins after stop sel L : List Event)
    (ex2 : Exit)
    (hL : L = pro ++ ins ++ after ++ stop)
    (hpro : ∀ e, e ∈ pro → e = Event.gcOff ∨ e = Event.cpuStart)
    (hins : ∀ e, e ∈ ins → fromInsert e = true)
    (hselP : ∀ e, e ∈ sel → fromSelect e = true)
    (hstop : ∀ e, e ∈ stop → e = Event.cpuStop)
    (hcase : (after = [] ∧ Event.insertFinished ∉ ins ∧ flags.insertDB ∈ insertNames) ∨
      ((flags.insertDB ∈ insertNames → Event.insertFinished ∈ ins) ∧
        ∃ rep, after = sel ++ rep ∧
          (∀ e, e ∈ rep → isInsertEvent e = false ∧ isSelectEvent e = false) ∧
          (ex2 = .returned → ∃ tail, rep = .memReport :: tail)))
    (hdone : flags.insertDB ∉ insertNames ∨ Event.insertFinished ∈ L) :
    L.filter isSelectEvent = sel.filter isSelectEvent := by
  rw [main_select_events pro ins after stop L hL hpro hins hstop]
  rcases hcase with ⟨_, hnot, hname⟩ | ⟨_, rep, h, hrep, _⟩
  · exfalso
    rcases hdone with hd | hd
    · exact hd hname
    · have hmem : Event.insertFinished ∈ L.filter isInsertEvent :=
        mem_filter_of _ _ _ hd rfl
      rw [main_insert_events pro ins after stop L hL hpro
        (after_no_insert ins after sel flags.insertDB hselP ex2 (Or.inl ⟨‹_›, hnot, hname⟩))
        hstop] at hmem
      exact hnot (List.mem_filter.mp hmem).1
  · rw [h, List.filter_append, filter_eq_nil_of_forall _ rep (fun e he => (hrep e he).2),
      List.append_nil]

theorem selectSwitch_unknown (env : Env) (cfg : Config) (name : String)
    (h : name ∉ selectNames) (s : St) : selectSwitch env cfg name s = (.returned, s) := by
  simp only [selectNames, List.mem_cons, List.mem_singleton, List.not_mem_nil, or_false,
    not_or] at h
  simp [selectSwitch, h.1, h.2.1, h.2.2]

theorem insertSwitch_unknown (env : Env) (cfg : Config) (name : String)
    (h : name ∉ insertNames) (s : St) : insertSwitch env cfg name s = (.returned, s) := by
  rcases insertSwitch_cases env cfg name with ⟨_, h'⟩ | ⟨hn, _⟩
  · exact h' s
  · exact absurd hn h

/-! ### An insert workload does not look at the log it appends to -/

theorem genBook_mk (env : Env) (i : Nat) (m : Mem) :
    ∃ m', ∀ l : List Event, genBook env i ⟨m, l⟩ = some ⟨m', l⟩ := by
  obtain ⟨m', h⟩ := fakeBook_isSome (env.draw i) env.bookAddr m
  exact ⟨m', fun l => by simp [genBook, h]⟩

theorem body_param (env : Env) (w : InsertBackend) (i : Nat) (m : Mem) :
    ∃ (m' : Mem) (e : Event) (r : BodyResult),
      ∀ l : List Event, w.body env i ⟨m, l⟩ = (⟨m', l ++ [e]⟩, r) := by
  cases w
  · obtain ⟨m1, h1⟩ := genBook_mk env i m
    rcases ho : env.pgInsert i (m1.books env.bookAddr)
      (readSlice m1 (m1.books env.bookAddr).Tags) with e | id
    · exact ⟨m1, .insertCall i false, .failed e, fun l => by
        simp only [InsertBackend.body, pgInsertBody, h1, tagsSeen, ho, St.emit]⟩
    · exact ⟨m1, .insertCall i true, .next (some id), fun l => by
        simp only [InsertBackend.body, pgInsertBody, h1, tagsSeen, ho, St.emit]⟩
  · obtain ⟨m1, h1⟩ := genBook_mk env i m
    rcases ho : env.pgxInsert i (m1.books env.bookAddr)
      (readSlice m1 (m1.books env.bookAddr).Tags) with e | id
    · exact ⟨m1, .insertCall i false, .failed e, fun l => by
        simp only [InsertBackend.body, pgxInsertBody, h1, tagsSeen, ho, St.emit]⟩
    · exact ⟨m1, .insertCall i true, .next (some id), fun l => by
        simp only [InsertBackend.body, pgxInsertBody, h1, tagsSeen, ho, St.emit]⟩
  · obtain ⟨m1, h1⟩ := genBook_mk env i m
    rcases ho : env.pqInsert i (m1.books env.bookAddr)
      (readSlice m1 (m1.books env.bookAddr).Tags) with e | id
    · exact ⟨m1, .insertCall i false, .failed e, fun l => by
        simp only [InsertBackend.body, pqInsertBody, h1, tagsSeen, ho, St.emit]⟩
    · exact ⟨m1, .insertCall i true, .next (some id), fun l => by
        simp only [InsertBackend.body, pqInsertBody, h1, tagsSeen, ho, St.emit]⟩
  · obtain ⟨m1, h1⟩ := genBook_mk env i
      (m.setBook env.bookAddr { m.books env.bookAddr with ID := 0 })
    rcases ho : env.goPGInsert i (m1.books env.bookAddr)
      (readSlice m1 (m1.books env.bookAddr).Tags) with e | id
    · exact ⟨m1, .insertCall i false, .failed e, fun l => by
        simp only [InsertBackend.body, goPGInsertBody, h1, tagsSeen, ho, St.emit]⟩
    · exact ⟨m1.setBook env.bookAddr { m1.books env.bookAddr with ID := id },
        .insertCall i true,
        .next (some ((m1.setBook env.bookAddr
          { m1.books env.bookAddr with ID := id }).books env.bookAddr).ID), fun l => by
        simp only [InsertBackend.body, goPGInsertBody, h1, tagsSeen, ho, St.emit]⟩
  · obtain ⟨m1, h1⟩ := genBook_mk env i m
    rcases ho : env.mongoInsert i (m1.books env.bookAddr)
      (readSlice m1 (m1.books env.bookAddr).Tags) with _ | e
    · exact ⟨m1, .insertCall i true, .next none, fun l => by
        simp only [InsertBackend.body, mongoInsertBody, h1, tagsSeen, ho, St.emit]⟩
    · exact ⟨m1, .insertCall i false, .failed e, fun l => by
        simp only [InsertBackend.body, mongoInsertBody, h1, tagsSeen, ho, St.emit]⟩

theorem insertLoop_param (env : Env) (cfg : Config) (w : InsertBackend) :
    ∀ (fuel i : Nat) (m : Mem), ∃ (ex : Exit) (m' : Mem) (new : List Event),
      ∀ l : List Event, insertLoop cfg (w.body env) fuel i ⟨m, l⟩ = (ex, ⟨m', l ++ new⟩) := by
  intro fuel
  induction fuel with
  | zero => intro i m; exact ⟨.stuck, m, [], fun l => by simp [insertLoop]⟩
  | succ fuel ih =>
    intro i m
    by_cases hi : i ≤ cfg.totalInsertCount
    · obtain ⟨m1, e, r, hb⟩ := body_param env w i m
      cases r with
      | stuck =>
        exact ⟨.stuck, m1, [e], fun l => by simp only [insertLoop, hi, if_true, hb]⟩
      | failed err =>
        exact ⟨.fatal, m1, [e, .fatal (some err)], fun l => by
          simp only [insertLoop, hi, if_true, hb, St.emit, List.append_assoc,
            List.singleton_append]⟩
      | next id =>
        by_cases h0 : 0 < i
        · by_cases hz : cfg.insertCount = 0
          · exact ⟨.panicked, m1, [e, .panic "integer divide by zero"], fun l => by
              simp only [insertLoop, hi, if_true, hb, h0, hz, St.emit, List.append_assoc,
                List.singleton_append]⟩
          · by_cases hm : i % cfg.insertCount = 0
            · obtain ⟨ex, m', new, hrun⟩ := ih (i + 1) m1
              refine ⟨ex, m', e :: .progress i id :: new, fun l => ?_⟩
              simp only [insertLoop, hi, if_true, hb, h0, hz, if_false, hm, St.emit, hrun,
                List.append_assoc, List.singleton_append, List.cons_append, List.nil_append]
            · obtain ⟨ex, m', new, hrun⟩ := ih (i + 1) m1
              refine ⟨ex, m', e :: new, fun l => ?_⟩
              simp only [insertLoop, hi, if_true, hb, h0, hz, if_false, hm, hrun,
                List.append_assoc, List.singleton_append]
        · obtain ⟨ex, m', new, hrun⟩ := ih (i + 1) m1
          refine ⟨ex, m', e :: new, fun l => ?_⟩
          simp only [insertLoop, hi, if_true, hb, h0, if_false, hrun,
            List.append_assoc, List.singleton_append]
    · exact ⟨.returned, m, [], fun l => by simp [insertLoop, hi]⟩

theorem insertRun_param (env : Env) (cfg : Config) (w : InsertBackend) (m : Mem) :
    ∃ (ex : Exit) (m' : Mem) (new : List Event),
      ∀ l : List Event, insertRun cfg (w.body env) ⟨m, l⟩ = (ex, ⟨m', l ++ new⟩) := by
  obtain ⟨ex, m', new, hrun⟩ := insertLoop_param env cfg w (cfg.totalInsertCount + 2) 0 m
  cases ex with
  | returned =>
    exact ⟨.returned, m', new ++ [.insertFinished], fun l => by
      simp only [insertRun, hrun, St.emit, List.append_assoc]⟩
  | fatal => exact ⟨.fatal, m', new, fun l => by simp only [insertRun, hrun]⟩
  | panicked => exact ⟨.panicked, m', new, fun l => by simp only [insertRun, hrun]⟩
  | stuck => exact ⟨.stuck, m', new, fun l => by simp only [insertRun, hrun]⟩

/-- The exit of the insert switch, the memory it leaves and the events it adds
depend on the name, the environment and the memory it starts from, not on the
log it appends to. -/
theorem insertSwitch_param (env : Env) (cfg : Config) (name : String) (m : Mem) :
    ∃ (ex : Exit) (m' : Mem) (new : List Event),
      ∀ l : List Event, insertSwitch env cfg name ⟨m, l⟩ = (ex, ⟨m', l ++ new⟩) := by
  rcases insertSwitch_cases env cfg name with ⟨_, h⟩ | ⟨_, w, _, h⟩
  · exact ⟨.returned, m, [], fun l => by rw [h]; simp⟩
  · have hrun := insertRun_param env cfg w (m.setBook env.bookAddr Book.zero)
    obtain ⟨ex, m', new, hrun⟩ := hrun
    cases w <;> simp only [InsertBackend.body] at hrun
    · rcases hp : env.pgOpen with _ | e
      · exact ⟨ex, m', new, fun l => by
          rw [h]; simp only [InsertBackend.run, pgInsert, hp, declBook, hrun]⟩
      · exact ⟨.panicked, m, [.panic "nil pointer dereference"], fun l => by
          rw [h]; simp only [InsertBackend.run, pgInsert, hp, St.emit]⟩
    · rcases hp : env.pgxConnect with _ | e
      · rcases hq : env.pgxPrepare with _ | e
        · exact ⟨ex, m', new, fun l => by
            rw [h]; simp only [InsertBackend.run, pgxInsert, hp, hq, declBook, hrun]⟩
        · exact ⟨.fatal, m.setBook env.bookAddr Book.zero, [.fatal (some e)], fun l => by
            rw [h]; simp only [InsertBackend.run, pgxInsert, hp, hq, declBook, St.emit]⟩
      · exact ⟨.fatal, m, [.fatal (some e)], fun l => by
          rw [h]; simp only [InsertBackend.run, pgxInsert, hp, St.emit]⟩
    · rcases hp : env.pqOpen with _ | e
      · rcases hq : env.pqPrepare with _ | e
        · exact ⟨ex, m', new, fun l => by
            rw [h]; simp only [InsertBackend.run, pqInsert, hp, hq, declBook, hrun]⟩
        · exact ⟨.fatal, m.setBook env.bookAddr Book.zero, [.fatal (some e)], fun l => by
            rw [h]; simp only [InsertBackend.run, pqInsert, hp, hq, declBook, St.emit]⟩
      · exact ⟨.fatal, m, [.fatal (some e)], fun l => by
          rw [h]; simp only [InsertBackend.run, pqInsert, hp, St.emit]⟩
    · cases ex with
      | returned =>
        exact ⟨.returned, m', new ++ [.dbClose], fun l => by
          rw [h]
          simp only [InsertBackend.run, goPGInsert, declBook, hrun, St.emit,
            List.append_assoc]⟩
      | panicked =>
        exact ⟨.panicked, m', new ++ [.dbClose], fun l => by
          rw [h]
          simp only [InsertBackend.run, goPGInsert, declBook, hrun, St.emit,
            List.append_assoc]⟩
      | fatal =>
        exact ⟨.fatal, m', new, fun l => by
          rw [h]; simp only [InsertBackend.run, goPGInsert, declBook, hrun]⟩
      | stuck =>
        exact ⟨.stuck, m', new, fun l => by
          rw [h]; simp only [InsertBackend.run, goPGInsert, declBook, hrun]⟩
    · rcases hp : env.mongoDial with _ | e
      · exact ⟨ex, m', new, fun l => by
          rw [h]; simp only [InsertBackend.run, mongoInsert, hp, declBook, hrun]⟩
      · exact ⟨.fatal, m, [.fatal (some e)], fun l => by
          rw [h]; simp only [InsertBackend.run, mongoInsert, hp, St.emit]⟩

/-! ### The loops never run out of fuel -/

theorem body_not_stuck (env : Env) (w : InsertBackend) (i : Nat) (s s' : St) :
    w.body env i s ≠ (s', .stuck) := by
  cases w
  · obtain ⟨s1, h1, _⟩ := genBook_some env i s
    simp only [InsertBackend.body, pgInsertBody, h1]
    cases env.pgInsert i (s1.mem.books env.bookAddr) (tagsSeen s1 env.bookAddr) <;> simp
  · obtain ⟨s1, h1, _⟩ := genBook_some env i s
    simp only [InsertBackend.body, pgxInsertBody, h1]
    cases env.pgxInsert i (s1.mem.books env.bookAddr) (tagsSeen s1 env.bookAddr) <;> simp
  · obtain ⟨s1, h1, _⟩ := genBook_some env i s
    simp only [InsertBackend.body, pqInsertBody, h1]
    cases env.pqInsert i (s1.mem.books env.bookAddr) (tagsSeen s1 env.bookAddr) <;> simp
  · obtain ⟨s1, h1, _⟩ := genBook_some env i
      { s with mem := s.mem.setBook env.bookAddr { s.mem.books env.bookAddr with ID := 0 } }
    simp only [InsertBackend.body, goPGInsertBody, h1]
    cases env.goPGInsert i (s1.mem.books env.bookAddr) (tagsSeen s1 env.bookAddr) <;> simp
  · obtain ⟨s1, h1, _⟩ := genBook_some env i s
    simp only [InsertBackend.body, mongoInsertBody, h1]
    cases env.mongoInsert i (s1.mem.books env.bookAddr) (tagsSeen s1 env.bookAddr) <;> simp

theorem insertLoop_not_stuck (cfg : Config) (body : Nat → St → St × BodyResult)
    (hbody : ∀ i s s', body i s ≠ (s', .stuck)) :
    ∀ (fuel i : Nat) (s : St), 0 < fuel → cfg.totalInsertCount + 1 < fuel + i →
      (insertLoop cfg body fuel i s).1 ≠ .stuck := by
  intro fuel
  induction fuel with
  | zero => intro i s h0 _; omega
  | succ fuel ih =>
    intro i s _ h
    simp only [insertLoop]
    split
    · rcases hr : body i s with ⟨s1, r⟩
      cases r with
      | stuck => exact absurd hr (hbody i s s1)
      | failed e => simp
      | next id =>
        simp only
        split
        · split
          · simp
          · split
            · exact ih _ _ (by omega) (by omega)
            · exact ih _ _ (by omega) (by omega)
        · exact ih _ _ (by omega) (by omega)
    · simp

theorem insertRun_not_stuck (env : Env) (cfg : Config) (w : InsertBackend) (s : St) :
    (insertRun cfg (w.body env) s).1 ≠ .stuck := by
  have h := insertLoop_not_stuck cfg (w.body env) (body_not_stuck env w)
    (cfg.totalInsertCount + 2) 0 s (by omega) (by omega)
  rcases hr : insertLoop cfg (w.body env) (cfg.totalInsertCount + 2) 0 s with ⟨ex, s1⟩
  rw [hr] at h
  cases ex <;> simp_all [insertRun]

theorem insertSwitch_not_stuck (env : Env) (cfg : Config) (name : String) (s : St) :
    (insertSwitch env cfg name s).1 ≠ .stuck := by
  rcases insertSwitch_cases env cfg name with ⟨_, h⟩ | ⟨_, w, _, h⟩
  · rw [h s]; simp
  · rw [h s]
    have hrun := insertRun_not_stuck env cfg w (declBook env s)
    cases w <;> simp only [InsertBackend.body] at hrun
    · simp only [InsertBackend.run, pgInsert]
      rcases env.pgOpen with _ | e
      · exact hrun
      · simp
    · simp only [InsertBackend.run, pgxInsert]
      rcases env.pgxConnect with _ | e
      · rcases env.pgxPrepare with _ | e
        · exact hrun
        · simp
      · simp
    · simp only [InsertBackend.run, pqInsert]
      rcases env.pqOpen with _ | e
      · rcases env.pqPrepare with _ | e
        · exact hrun
        · simp
      · simp
    · simp only [InsertBackend.run, goPGInsert]
      rcases hr : insertRun cfg (goPGInsertBody env) (declBook env s) with ⟨ex, s1⟩
      rw [hr] at hrun
      cases ex <;> simp_all
    · simp only [InsertBackend.run, mongoInsert]
      rcases env.mongoDial with _ | e
      · exact hrun
      · simp

theorem selectLoop_not_stuck (env : Env) (cfg : Config) (w : SelectBackend) :
    ∀ (fuel i : Nat) (s : St) (found : Nat), 0 < fuel → cfg.selectCount < fuel + i →
      (selectLoop cfg (w.body env) fuel i s found).1 ≠ .stuck := by
  intro fuel
  induction fuel with
  | zero => intro i s found h0 _; omega
  | succ fuel ih =>
    intro i s found _ h
    simp only [selectLoop]
    split
    · by_cases hok : env.cursorEndsOk w i
      · obtain ⟨s1, h1, _⟩ := selectBody_next env w i s found hok
        rw [h1]
        exact ih _ _ _ (by omega) (by omega)
      · obtain ⟨s1, h1, _⟩ := selectBody_fatal env w i s found hok
        rw [h1]
        simp
    · simp

theorem selectSwitch_not_stuck (env : Env) (cfg : Config) (name : String) (s : St) :
    (selectSwitch env cfg name s).1 ≠ .stuck := by
  have hrun : ∀ (w : SelectBackend) (s : St), (selectRun cfg (w.body env) s).1 ≠ .stuck := by
    intro w s
    have h := selectLoop_not_stuck env cfg w (cfg.selectCount + 1) 0 s 0 (by omega) (by omega)
    rcases hr : selectLoop cfg (w.body env) (cfg.selectCount + 1) 0 s 0 with ⟨ex, s1, f⟩
    rw [hr] at h
    cases ex
    · simp only [selectRun, hr]
      split <;> simp
    · simp [selectRun, hr]
    · simp [selectRun, hr]
    · exact absurd rfl h
  simp only [selectSwitch]
  split
  · simp only [pgSelect]
    rcases env.pgOpenSel with _ | e
    · exact hrun .pg _
    · simp
  · split
    · simp only [mongoSelect]
      rcases env.mongoDialSel with _ | e
      · exact hrun .mongo _
      · simp
    · split
      · simp [sqlxSelect]
      · simp

/-- The model of `main` never runs out of fuel: every run ends by returning,
by `log.Fatal` or by a panic. -/
theorem main_not_stuck (env : Env) (cfg : Config) (flags : Flags) :
    (main env cfg flags).1 ≠ .stuck := by
  have hwork : ∀ s, (mainWork env cfg flags s).1 ≠ .stuck := by
    intro s
    have h1 := insertSwitch_not_stuck env cfg flags.insertDB s
    simp only [mainWork]
    rcases hr1 : insertSwitch env cfg flags.insertDB s with ⟨e1, s1⟩
    rw [hr1] at h1
    cases e1
    · simp only
      have h2 := selectSwitch_not_stuck env cfg flags.selectDB s1
      rcases hr2 : selectSwitch env cfg flags.selectDB s1 with ⟨e2, s2⟩
      rw [hr2] at h2
      cases e2
      · simp only
        obtain ⟨ex3, tail, _, hrep⟩ := mainReport_param env flags
        simp only [mainReport]
        split
        · rcases env.memCreate with _ | e
          · rcases env.writeHeap with _ | e <;> simp
          · simp
        · simp
      · simp
      · simp
      · exact absurd rfl h2
    · simp
    · simp
    · exact absurd rfl h1
  simp only [main]
  split
  · rcases env.cpuCreate with _ | e
    · simp only
      have h := hwork ((if flags.memprofile ≠ "" then St.init.emit .gcOff else St.init).emit
        .cpuStart)
      rcases hr : mainWork env cfg flags
        ((if flags.memprofile ≠ "" then St.init.emit .gcOff else St.init).emit .cpuStart)
        with ⟨ex, s1⟩
      rw [hr] at h
      cases ex <;> simp_all [withDeferredStop]
    · simp
  · exact hwork _

/-! ## Process entry: the claims -/

/-- C7: backend dispatch in `main`, for every run that reaches the dispatch
(CPU profile not requested, or its file created).
(1) For an insert name outside {"pg", "pgx", "pq", "go-pg", "mongo"} the insert
switch returns at once leaving the state unchanged, and the run has no event
of an insert workload. (2) For a select name outside {"pg", "mongo", "sqlx"}
the select switch returns at once leaving the state unchanged, and the run has
no event of a select workload. (3) When both names are unknown, the first
event after the prologue is the memory report; when one name is unknown and
the switch of the other mode returns, the run reaches the memory report. (4) The log splits into a part
without select-workload events followed by a part without insert-workload
events, and if the second part has a select-workload event while an insert
workload was named, the insert summary line is in the first part: the insert
workload ran to completion before the select workload started. (5) The
insert-workload events of the run do not depend on the select name nor on the
profiling flags. (6) The
select-workload events of a run whose insert phase completed do not depend on
the insert name nor on the profiling flags. -/
theorem main_dispatch (env : Env) (cfg : Config) (flags : Flags)
    (hcpu : flags.cpuprofile = "" ∨ env.cpuCreate = none) :
    (flags.insertDB ∉ insertNames →
      (∀ s, insertSwitch env cfg flags.insertDB s = (.returned, s)) ∧
      (∀ e, e ∈ (main env cfg flags).2.log → isInsertEvent e = false)) ∧
    (flags.selectDB ∉ selectNames →
      (∀ s, selectSwitch env cfg flags.selectDB s = (.returned, s)) ∧
      (∀ e, e ∈ (main env cfg flags).2.log → isSelectEvent e = false)) ∧
    (flags.insertDB ∉ insertNames → flags.selectDB ∉ selectNames →
      ∃ post, (main env cfg flags).2.log = prologue flags ++ .memReport :: post) ∧
    (flags.insertDB ∉ insertNames →
      (selectSwitch env cfg flags.selectDB (startState flags)).1 = .returned →
      Event.memReport ∈ (main env cfg flags).2.log) ∧
    (flags.selectDB ∉ selectNames →
      (insertSwitch env cfg flags.insertDB (startState flags)).1 = .returned →
      Event.memReport ∈ (main env cfg flags).2.log) ∧
    (∃ a b, (main env cfg flags).2.log = a ++ b ∧
      (∀ e, e ∈ a → isSelectEvent e = false) ∧
      (∀ e, e ∈ b → isInsertEvent e = false) ∧
      ((∃ e, e ∈ b ∧ isSelectEvent e = true) → flags.insertDB ∈ insertNames →
        Event.insertFinished ∈ a)) ∧
    (∀ flags' : Flags, flags'.insertDB = flags.insertDB →
      (flags'.cpuprofile = "" ∨ env.cpuCreate = none) →
      (main env cfg flags').2.log.filter isInsertEvent
        = (main env cfg flags).2.log.filter isInsertEvent) ∧
    (∀ flags' : Flags, flags'.selectDB = flags.selectDB →
      (flags'.cpuprofile = "" ∨ env.cpuCreate = none) →
      (flags.insertDB ∉ insertNames ∨ Event.insertFinished ∈ (main env cfg flags).2.log) →
      (flags'.insertDB ∉ insertNames ∨ Event.insertFinished ∈ (main env cfg flags').2.log) →
      (main env cfg flags').2.log.filter isSelectEvent
        = (main env cfg flags).2.log.filter isSelectEvent) := by
  obtain ⟨ex2, sel, hselP, hselU, hsel⟩ := selectSwitch_param env cfg flags.selectDB
  obtain ⟨ins, after, stop, hL, hI, hinsP, hinsU, hstop, hcase, hdone⟩ :=
    main_run env cfg flags hcpu ex2 sel hsel
  have hpro := prologue_clean flags
  have hafterI := after_no_insert ins after sel flags.insertDB hselP ex2 hcase
  have hfI := main_insert_events _ ins after stop _ hL hpro hafterI hstop
  have hfS := main_select_events _ ins after stop _ hL hpro hinsP hstop
  have hrep : (insertSwitch env cfg flags.insertDB (startState flags)).1 = .returned →
      ex2 = .returned → Event.memReport ∈ (main env cfg flags).2.log := by
    intro hr he2
    obtain ⟨tail, ht⟩ := hdone hr he2
    rw [hL, ht]
    simp
  refine ⟨?_, ?_, ?_, ?_, ?_, ?_, ?_, ?_⟩
  rotate_left 3
  · intro hni hret
    obtain ⟨m, hm⟩ := hsel (startState flags)
    rw [hm] at hret
    exact hrep (by rw [insertSwitch_unknown env cfg _ hni]) hret
  · intro hns hret
    exact hrep hret (hselU hns).1
  rotate_right 3
  · intro hn
    refine ⟨insertSwitch_unknown env cfg _ hn, fun e he => ?_⟩
    by_contra hc
    have hmem : e ∈ (main env cfg flags).2.log.filter isInsertEvent :=
      mem_filter_of _ _ _ he (by simpa using hc)
    rw [hfI, hinsU hn] at hmem
    simp at hmem
  · intro hn
    refine ⟨selectSwitch_unknown env cfg _ hn, fun e he => ?_⟩
    by_contra hc
    have hmem : e ∈ (main env cfg flags).2.log.filter isSelectEvent :=
      mem_filter_of _ _ _ he (by simpa using hc)
    rw [hfS] at hmem
    have hin := (List.mem_filter.mp hmem).1
    have hp := (List.mem_filter.mp hmem).2
    rcases hcase with ⟨h, _, _⟩ | ⟨_, rep, h, hrep, _⟩
    · rw [h] at hin; simp at hin
    · rw [h, (hselU hn).2, List.nil_append] at hin
      rw [(hrep e hin).2] at hp
      cases hp
  · intro hni hns
    rcases hcase with ⟨_, _, h⟩ | ⟨_, rep, h, _, hrep⟩
    · exact absurd h hni
    · obtain ⟨tail, ht⟩ := hrep (hselU hns).1
      refine ⟨tail ++ stop, ?_⟩
      rw [hL, hinsU hni, h, (hselU hns).2, ht]
      simp
  · refine ⟨prologue flags ++ ins, after ++ stop, by rw [hL]; simp, ?_, ?_, ?_⟩
    · intro e he
      rcases List.mem_append.mp he with h | h
      · rcases hpro e h with h | h <;> subst h <;> rfl
      · exact fromInsert_not_select e (hinsP e h)
    · intro e he
      rcases List.mem_append.mp he with h | h
      · exact hafterI e h
      · rw [hstop e h]; rfl
    · rintro ⟨e, he, hp⟩ hname
      rcases hcase with ⟨h, _, _⟩ | ⟨h, _⟩
      · rw [h, List.nil_append] at he
        rw [hstop e he] at hp
        cases hp
      · exact List.mem_append_right _ (h hname)
  · intro flags' h1 hcpu'
    obtain ⟨ex2', sel', hselP', _, hsel'⟩ := selectSwitch_param env cfg flags'.selectDB
    obtain ⟨ins', after', stop', hL', hI', _, _, hstop', hcase', _⟩ :=
      main_run env cfg flags' hcpu' ex2' sel' hsel'
    obtain ⟨ex1, m1, new1, hpar⟩ := insertSwitch_param env cfg flags.insertDB Mem.init
    have e1 : ins = new1 := by
      have := hpar (prologue flags)
      simp only [startState, this] at hI
      exact (List.append_cancel_left hI).symm
    have e2 : ins' = new1 := by
      have := hpar (prologue flags')
      rw [h1] at hI'
      simp only [startState, this] at hI'
      exact (List.append_cancel_left hI').symm
    rw [main_insert_events _ ins' after' stop' _ hL' (prologue_clean flags')
      (after_no_insert ins' after' sel' flags'.insertDB hselP' ex2' hcase') hstop', hfI, e1, e2]
  · intro flags' h1 hcpu' hd hd'
    have hsel' : ∀ s : St, ∃ m,
        selectSwitch env cfg flags'.selectDB s = (ex2, ⟨m, s.log ++ sel⟩) := by
      rw [h1]; exact hsel
    obtain ⟨ins', after', stop', hL', _, hinsP', _, hstop', hcase', _⟩ :=
      main_run env cfg flags' hcpu' ex2 sel hsel'
    rw [main_select_events_complete flags' _ ins' after' stop' sel _ ex2 hL'
        (prologue_clean flags') hinsP' hselP hstop' hcase' hd',
      main_select_events_complete flags _ ins after stop sel _ ex2 hL hpro hinsP hselP hstop
        hcase hd]

/-- C7 at concrete flags: with the unknown names "oracle" and "redis" and no
profiling, `main` makes no adapter call and its whole log is the memory
report. -/
theorem main_dispatch_witness :
    ((unknownFlags.cpuprofile = "" ∨ mockEnv.cpuCreate = none) ∧
      unknownFlags.insertDB ∉ insertNames ∧ unknownFlags.selectDB ∉ selectNames) ∧
    (∀ e, e ∈ (main mockEnv scenarioA unknownFlags).2.log → isInsertEvent e = false) ∧
    (∀ e, e ∈ (main mockEnv scenarioA unknownFlags).2.log → isSelectEvent e = false) ∧
    (∃ post, (main mockEnv scenarioA unknownFlags).2.log
      = prologue unknownFlags ++ .memReport :: post) ∧
    (main mockEnv scenarioA unknownFlags).2.log = [.memReport] := by
  have h := main_dispatch mockEnv scenarioA unknownFlags (Or.inl rfl)
  have hi : unknownFlags.insertDB ∉ insertNames := by decide
  have hs : unknownFlags.selectDB ∉ selectNames := by decide
  exact ⟨⟨Or.inl rfl, hi, hs⟩, (h.1 hi).2, (h.2.1 hs).2, h.2.2.1 hi hs, by decide⟩

/-- Companion to C8: when a CPU profile is requested and its file is created,
sampling starts before the insert switch is reached, and whenever `main` ends
by returning or by a panic the last event of the process is
`pprof.StopCPUProfile()`. (The fatal exits are the ones that skip it.) -/
theorem main_cpu_stopped_unless_fatal (env : Env) (cfg : Config) (flags : Flags)
    (hc : flags.cpuprofile ≠ "") (hcr : env.cpuCreate = none) :
    (∃ rest, (main env cfg flags).2.log = prologue flags ++ rest ∧
      prologue flags = (if flags.memprofile ≠ "" then [.gcOff] else []) ++ [.cpuStart]) ∧
    ((main env cfg flags).1 = .returned ∨ (main env cfg flags).1 = .panicked →
      (main env cfg flags).2.log.getLast? = some .cpuStop) := by
  obtain ⟨ex2, sel, _, _, hsel⟩ := selectSwitch_param env cfg flags.selectDB
  obtain ⟨ins, after, stop, hL, _⟩ := main_run env cfg flags (Or.inr hcr) ex2 sel hsel
  refine ⟨⟨ins ++ after ++ stop, by rw [hL]; simp, by simp [prologue, hc]⟩, ?_⟩
  rw [main_eq env cfg flags (Or.inr hcr)]
  rcases mainWork env cfg flags (startState flags) with ⟨ex, s⟩
  cases ex <;> simp [finish, hc, withDeferredStop, St.emit]

end Ormbench
